import Mathlib

/-!
Verification of the SQL ReAct agent's orchestration core against its
specification.  The Python sources (`src/prompts.py`, `src/tools.py`,
`src/agent.py`, `api.py`) are shallowly embedded below: pure string
manipulation is modelled over `List Char` / `String`, the LLM provider and
the live SQLite connection are modelled as oracles, wall-clock time and
delays are modelled as rationals, and the retry/ReAct loops are modelled as
fuel-indexed recursive functions (the fuel is the loop's remaining
iteration count, so the embedding is executable).

Character-level predicates model Python's ASCII behaviour of `re` classes
(`\w`, `\s`, `\b`), `str.upper`/`str.lower`/`str.strip`, which is exact for
the ASCII strings the claims are about.
-/

set_option maxHeartbeats 1600000
set_option maxRecDepth 8192

namespace SqlReactVerif

/-! ## Character classes (ASCII, as used by the Python source) -/

/-- Python regex `\s` and `str.strip` whitespace (ASCII): space, tab, LF, CR, VT, FF. -/
def isPyWs (c : Char) : Bool :=
  c.toNat = 32 || c.toNat = 9 || c.toNat = 10 || c.toNat = 13 || c.toNat = 11 || c.toNat = 12

/-- JSON insignificant whitespace (RFC 8259): space, tab, LF, CR. -/
def isJsonWs (c : Char) : Bool :=
  c.toNat = 32 || c.toNat = 9 || c.toNat = 10 || c.toNat = 13

/-- ASCII decimal digit. -/
def isDigitCh (c : Char) : Bool := 48 ≤ c.toNat && c.toNat ≤ 57

/-- ASCII letter. -/
def isAlphaCh (c : Char) : Bool :=
  (65 ≤ c.toNat && c.toNat ≤ 90) || (97 ≤ c.toNat && c.toNat ≤ 122)

/-- Python regex `\w` (ASCII): letter, digit or underscore. -/
def wordCh (c : Char) : Bool := isAlphaCh c || isDigitCh c || c = '_'

/-! ## List-of-characters utilities shared by the embeddings -/

/-- Python's substring test `pat in hay` (`True` for the empty pattern). -/
def containsSub (hay pat : List Char) : Bool :=
  if pat.isPrefixOf hay then true
  else
    match hay with
    | [] => false
    | _ :: t => containsSub t pat

/-- `str.upper` (ASCII model, via core's ASCII `Char.toUpper`). -/
def upperL (l : List Char) : List Char := l.map Char.toUpper

/-- `str.lower` (ASCII model). -/
def lowerL (l : List Char) : List Char := l.map Char.toLower

/-- Strip trailing Python-whitespace, `str.rstrip()`. -/
def rstripWsL (l : List Char) : List Char := (l.reverse.dropWhile isPyWs).reverse

/-- Strip all trailing semicolons, `str.rstrip(';')`. -/
def rstripSemiL (l : List Char) : List Char := (l.reverse.dropWhile (· = ';')).reverse

/-- `str.strip()`: drop Python-whitespace on both ends. -/
def pyStripL (l : List Char) : List Char := rstripWsL (l.dropWhile isPyWs)

/-- Skip regex-`\s*` characters at the front. -/
def skipPyWs : List Char → List Char
  | c :: r => if isPyWs c then skipPyWs r else c :: r
  | [] => []

/-- Skip JSON whitespace at the front. -/
def skipWs : List Char → List Char
  | c :: r => if isJsonWs c then skipWs r else c :: r
  | [] => []

/-- Split off the maximal leading run of regex word characters (`\w+` greediness). -/
def takeWordRun : List Char → List Char × List Char
  | [] => ([], [])
  | c :: r =>
    if wordCh c then
      let p := takeWordRun r
      (c :: p.1, p.2)
    else ([], c :: r)

/-- Split off the maximal leading run of decimal digits. -/
def takeDigits : List Char → List Char × List Char
  | [] => ([], [])
  | c :: r =>
    if isDigitCh c then
      let p := takeDigits r
      (c :: p.1, p.2)
    else ([], c :: r)

/-- Word-boundary search `re.search(r'\b' + kw + r'\b', hay)` for an all-word-character
    keyword `kw`: an occurrence of `kw` whose neighbouring characters (if any) are
    non-word characters.  `prev` is the character just before the current position. -/
def containsWordAt (kw : List Char) : Option Char → List Char → Bool
  | _, [] => kw.isEmpty
  | prev, c :: t =>
    (kw.isPrefixOf (c :: t)
      && (match prev with | none => true | some p => !wordCh p)
      && (match (c :: t).drop kw.length with | [] => true | d :: _ => !wordCh d))
    || containsWordAt kw (some c) t

/-- Word-boundary keyword test on a string (top-level entry). -/
def containsWord (hay kw : List Char) : Bool := containsWordAt kw none hay

/-! ## String-level wrappers -/

def strUpper (s : String) : String := ⟨upperL s.data⟩

def strLower (s : String) : String := ⟨lowerL s.data⟩

/-- Python `pat in s`. -/
def strContains (s pat : String) : Bool := containsSub s.data pat.data

def pyStrip (s : String) : String := ⟨pyStripL s.data⟩

/-- `s.startswith(pre)`. -/
def strStarts (s pre : String) : Bool := pre.data.isPrefixOf s.data

/-! ## JSON values

The action parameters the agent exchanges with the model are JSON texts.
`Json` is the value space (numbers are modelled as integers, which covers
every parameter object the agent's tools accept); `dumpValue` is a standard
JSON rendering of a value (the shape `json.dumps` produces: `", "` and
`": "` separators, strings with `\"`, `\\`, `\n` and `\u00XX` escapes);
`parseValue` models `json.loads` on such texts.  The parser recurses on an
explicit fuel so that it is executable and total; `parseJsonText` supplies
fuel from the input length, which is always sufficient (proved below). -/

inductive Json where
  | null
  | bool (b : Bool)
  | num (n : Int)
  | str (s : String)
  | arr (elems : List Json)
  | obj (fields : List (String × Json))

/-- The decimal digit characters. -/
def digitChar (d : Nat) : Char :=
  match d with
  | 0 => '0' | 1 => '1' | 2 => '2' | 3 => '3' | 4 => '4'
  | 5 => '5' | 6 => '6' | 7 => '7' | 8 => '8' | _ => '9'

/-- Lower-case hex digit characters. -/
def hexChar (d : Nat) : Char :=
  if d < 10 then digitChar d
  else if d = 10 then 'a' else if d = 11 then 'b' else if d = 12 then 'c'
  else if d = 13 then 'd' else if d = 14 then 'e' else 'f'

/-- Decimal rendering of a natural number. -/
def natToChars (m : Nat) : List Char :=
  if m = 0 then ['0'] else (Nat.digits 10 m).reverse.map digitChar

/-- Decimal rendering of an integer (as `json.dumps` renders an `int`). -/
def intToChars (k : Int) : List Char :=
  if k < 0 then '-' :: natToChars k.natAbs else natToChars k.toNat

/-- JSON string escaping for one character: `"` and `\` get a backslash,
    LF becomes `\n`, other control characters become `\u00XX`, everything
    else is emitted literally. -/
def escapeChar (c : Char) : List Char :=
  if c = '"' then ['\\', '"']
  else if c = '\\' then ['\\', '\\']
  else if c = '\n' then ['\\', 'n']
  else if c.toNat < 32 then ['\\', 'u', '0', '0', hexChar (c.toNat / 16), hexChar (c.toNat % 16)]
  else [c]

def escapeList : List Char → List Char
  | [] => []
  | c :: r => escapeChar c ++ escapeList r

/-- A JSON string literal, quotes included. -/
def dumpStr (s : String) : List Char := '"' :: escapeList s.data ++ ['"']

mutual

/-- Canonical JSON rendering of a value (the shape `json.dumps` emits). -/
def dumpValue : Json → List Char
  | .null => ['n', 'u', 'l', 'l']
  | .bool b => cond b ['t', 'r', 'u', 'e'] ['f', 'a', 'l', 's', 'e']
  | .num k => intToChars k
  | .str s => dumpStr s
  | .arr es => '[' :: dumpElems es ++ [']']
  | .obj fs => '{' :: dumpFields fs ++ ['}']

/-- Rendering of an object body: `"k": v` members joined by `", "`. -/
def dumpFields : List (String × Json) → List Char
  | [] => []
  | [(k, v)] => dumpStr k ++ ':' :: ' ' :: dumpValue v
  | (k, v) :: f2 :: fs =>
    dumpStr k ++ ':' :: ' ' :: dumpValue v ++ ',' :: ' ' :: dumpFields (f2 :: fs)

/-- Rendering of an array body: elements joined by `", "`. -/
def dumpElems : List Json → List Char
  | [] => []
  | [v] => dumpValue v
  | v :: v2 :: vs => dumpValue v ++ ',' :: ' ' :: dumpElems (v2 :: vs)

end

/-- Value of a hex digit character. -/
def hexVal (c : Char) : Option Nat :=
  if 48 ≤ c.toNat && c.toNat ≤ 57 then some (c.toNat - 48)
  else if 97 ≤ c.toNat && c.toNat ≤ 102 then some (c.toNat - 87)
  else if 65 ≤ c.toNat && c.toNat ≤ 70 then some (c.toNat - 55)
  else none

/-- Parse the body of a JSON string literal (after the opening quote);
    returns the decoded characters and the input remaining after the
    closing quote. -/
def parseStrBody : List Char → Option (List Char × List Char)
  | [] => none
  | c :: r =>
    if c = '"' then some ([], r)
    else if c = '\\' then
      match r with
      | [] => none
      | e :: r2 =>
        if e = '"' then (parseStrBody r2).map (fun p => ('"' :: p.1, p.2))
        else if e = '\\' then (parseStrBody r2).map (fun p => ('\\' :: p.1, p.2))
        else if e = '/' then (parseStrBody r2).map (fun p => ('/' :: p.1, p.2))
        else if e = 'n' then (parseStrBody r2).map (fun p => ('\n' :: p.1, p.2))
        else if e = 't' then (parseStrBody r2).map (fun p => ('\t' :: p.1, p.2))
        else if e = 'r' then (parseStrBody r2).map (fun p => ('\r' :: p.1, p.2))
        else if e = 'b' then (parseStrBody r2).map (fun p => (Char.ofNat 8 :: p.1, p.2))
        else if e = 'f' then (parseStrBody r2).map (fun p => (Char.ofNat 12 :: p.1, p.2))
        else if e = 'u' then
          match r2 with
          | a :: b :: c2 :: d :: r3 =>
            match hexVal a, hexVal b, hexVal c2, hexVal d with
            | some ha, some hb, some hc, some hd =>
              (parseStrBody r3).map
                (fun p => (Char.ofNat (4096 * ha + 256 * hb + 16 * hc + hd) :: p.1, p.2))
            | _, _, _, _ => none
          | _ => none
        else none
    else (parseStrBody r).map (fun p => (c :: p.1, p.2))

/-- Numeric value of a most-significant-first digit run. -/
def digitsVal (ds : List Char) : Nat :=
  ds.foldl (fun a c => a * 10 + (c.toNat - 48)) 0

/-- Parse a JSON integer numeral (optional minus sign, then digits). -/
def parseNumber : List Char → Option (Json × List Char)
  | [] => none
  | c :: r =>
    if c = '-' then
      let p := takeDigits r
      if p.1.isEmpty then none else some (.num (-(digitsVal p.1 : Int)), p.2)
    else
      let p := takeDigits (c :: r)
      if p.1.isEmpty then none else some (.num (digitsVal p.1), p.2)

mutual

/-- Parse one JSON value (model of `json.loads`' recursive-descent core).
    `fuel` bounds the recursion depth; `parseJsonText` always supplies
    enough of it. -/
def parseValue : Nat → List Char → Option (Json × List Char)
  | 0, _ => none
  | fuel + 1, s =>
    match skipWs s with
    | [] => none
    | c :: r =>
      if c = '{' then
        match skipWs r with
        | [] => none
        | c2 :: r2 =>
          if c2 = '}' then some (.obj [], r2)
          else (parseMembers fuel (c2 :: r2)).map (fun p => (Json.obj p.1, p.2))
      else if c = '[' then
        match skipWs r with
        | [] => none
        | c2 :: r2 =>
          if c2 = ']' then some (.arr [], r2)
          else (parseElems fuel (c2 :: r2)).map (fun p => (Json.arr p.1, p.2))
      else if c = '"' then
        (parseStrBody r).map (fun p => (Json.str ⟨p.1⟩, p.2))
      else if c = 't' then
        if ['r', 'u', 'e'].isPrefixOf r then some (.bool true, r.drop 3) else none
      else if c = 'f' then
        if ['a', 'l', 's', 'e'].isPrefixOf r then some (.bool false, r.drop 4) else none
      else if c = 'n' then
        if ['u', 'l', 'l'].isPrefixOf r then some (.null, r.drop 3) else none
      else parseNumber (c :: r)

/-- Parse the members of a JSON object after its `{` (at least one member). -/
def parseMembers : Nat → List Char → Option (List (String × Json) × List Char)
  | 0, _ => none
  | fuel + 1, s =>
    match skipWs s with
    | [] => none
    | c :: r =>
      if c = '"' then
        match parseStrBody r with
        | none => none
        | some (kcs, r2) =>
          match skipWs r2 with
          | [] => none
          | c2 :: r3 =>
            if c2 = ':' then
              match parseValue fuel r3 with
              | none => none
              | some (v, r4) =>
                match skipWs r4 with
                | [] => none
                | c3 :: r5 =>
                  if c3 = ',' then
                    match parseMembers fuel r5 with
                    | none => none
                    | some (fs, r6) => some ((⟨kcs⟩, v) :: fs, r6)
                  else if c3 = '}' then some ([(⟨kcs⟩, v)], r5)
                  else none
            else none
      else none

/-- Parse the elements of a JSON array after its `[` (at least one element). -/
def parseElems : Nat → List Char → Option (List Json × List Char)
  | 0, _ => none
  | fuel + 1, s =>
    match parseValue fuel s with
    | none => none
    | some (v, r) =>
      match skipWs r with
      | [] => none
      | c :: r2 =>
        if c = ',' then
          match parseElems fuel r2 with
          | none => none
          | some (vs, r3) => some (v :: vs, r3)
        else if c = ']' then some ([v], r2)
        else none

end

/-- Model of `json.loads` on a whole text: one value, then only whitespace. -/
def parseJsonText (l : List Char) : Option Json :=
  match parseValue (l.length + 1) l with
  | none => none
  | some (v, rest) => if skipWs rest = [] then some v else none

/-! ## `src/prompts.py`: action and final-answer extraction -/

/-- Try to match the regex `ACTION:\s*(\w+)` at the start of `s`
    (the literal marker, then greedy whitespace, then at least one word
    character).  On success, return the captured tool name and the input
    remaining after it (the regex match's end position). -/
def matchActionAt (s : List Char) : Option (List Char × List Char) :=
  if ("ACTION:").data.isPrefixOf s then
    let t := skipPyWs (s.drop 7)
    let p := takeWordRun t
    if p.1.isEmpty then none else some (p.1, p.2)
  else none

/-- `re.search(r'ACTION:\s*(\w+)', response)`: the leftmost `matchActionAt`. -/
def findAction : List Char → Option (List Char × List Char)
  | [] => none
  | c :: t =>
    match matchActionAt (c :: t) with
    | some r => some r
    | none => findAction t

/-- `response.find('\x7b', start_pos)`: the suffix beginning at the first
    opening brace at or after the current position (`none` when absent). -/
def dropToBrace : List Char → Option (List Char)
  | [] => none
  | c :: r => if c = '{' then some (c :: r) else dropToBrace r

/-- The brace-depth scan of `extract_action_from_response` (source lines
    129-139): walk the input keeping a running count, +1 on `\x7b` and -1 on
    `\x7d`; the scanned span ends at the character where the count reaches 0.
    Returns the span, closing brace included, or `none` when the count never
    reaches 0 (the source's `brace_end == -1`). -/
def braceSpan : Int → List Char → Option (List Char)
  | _, [] => none
  | depth, c :: r =>
    if c = '{' then (braceSpan (depth + 1) r).map (fun sp => c :: sp)
    else if c = '}' then
      if depth - 1 = 0 then some [c]
      else (braceSpan (depth - 1) r).map (fun sp => c :: sp)
    else (braceSpan depth r).map (fun sp => c :: sp)

/-- `extract_action_from_response` (source lines 111-152): regex the tool
    name out of `ACTION: name`, find the next `\x7b`, scan to the matching
    `\x7d` by brace counting, `json.loads` the span; any failure yields
    `none` (the source's `(None, None)`). -/
def extract_action_from_response (response : String) : Option (String × Json) :=
  match findAction response.data with
  | none => none
  | some (nameChars, rest) =>
    match dropToBrace rest with
    | none => none
    | some fromBrace =>
      match braceSpan 0 fromBrace with
      | none => none
      | some span =>
        match parseJsonText span with
        | none => none
        | some v => some (⟨nameChars⟩, v)

/-- `has_final_answer` (source lines 155-157): `"FINAL ANSWER:" in response.upper()`. -/
def has_final_answer (response : String) : Bool :=
  strContains (strUpper response) "FINAL ANSWER:"

/-- Leftmost case-insensitive occurrence of `pat` (already upper-case):
    returns the suffix after the occurrence. -/
def findAfterCI (pat : List Char) : List Char → Option (List Char)
  | [] => if pat.isEmpty then some [] else none
  | c :: t =>
    if pat.isPrefixOf (upperL (c :: t)) then some ((c :: t).drop pat.length)
    else findAfterCI pat t

/-- `extract_final_answer` (source lines 160-169): case-insensitive
    `re.search(r'FINAL ANSWER:\s*(.+)', response, DOTALL)` followed by
    `.strip()`, which amounts to: everything after the leftmost
    case-insensitive marker, stripped; `""` when the marker is absent. -/
def extract_final_answer (response : String) : String :=
  match findAfterCI ("FINAL ANSWER:").data response.data with
  | none => ""
  | some rest => ⟨pyStripL rest⟩

/-! ## `src/tools.py`: SQL validation, row cap, identifiers, `describe_table`

The live SQLite connection only enters `validate_sql_query` through the
`EXPLAIN` dry-run of layer 4; it is modelled as an oracle
`explain : String → Option String` returning `none` when the query is
syntactically valid on that connection and `some e` (the `sqlite3.Error`
text) otherwise. -/

/-- The keyword blacklist of layer 3, in source order. -/
def dangerous_keywords : List String :=
  ["DELETE", "DROP", "INSERT", "UPDATE", "ALTER", "TRUNCATE", "EXEC",
   "EXECUTE", "CREATE", "REPLACE", "PRAGMA", "ATTACH", "DETACH"]

/-- `validate_sql_query` (source lines 64-112): the four layered checks in
    order, short-circuiting on the first failure; returns
    `(is_valid, error_message)`. -/
def validate_sql_query (explain : String → Option String) (query : String) :
    Bool × String :=
  let queryStripped := pyStrip query
  let queryUpper := strUpper queryStripped
  if !(strStarts queryUpper "SELECT" || strStarts queryUpper "WITH") then
    (false, "Only SELECT queries (including WITH/CTEs) are allowed.")
  else
    let queryNoTrailing := rstripWsL (rstripSemiL queryStripped.data)
    if queryNoTrailing.contains ';' then
      (false, "Multiple statements not allowed.")
    else
      match dangerous_keywords.find? (fun kw => containsWord queryUpper.data kw.data) with
      | some kw => (false, "Dangerous keyword '" ++ kw ++ "' detected.")
      | none =>
        match explain query with
        | none => (true, "")
        | some e => (false, "Invalid SQL syntax: " ++ e)

/-- `add_limit_if_missing` (source lines 115-120): append
    `LIMIT default_limit` (after `rstrip(';').rstrip()`) unless the
    upper-cased query already contains `LIMIT`. -/
def add_limit_if_missing (query : String) (default_limit : Nat) : String :=
  if strContains (strUpper query) "LIMIT" then query
  else (⟨rstripWsL (rstripSemiL query.data)⟩ : String) ++ " LIMIT " ++ toString default_limit

/-- The identifier test of `sanitize_identifier` (source lines 123-130):
    `^[a-zA-Z_][a-zA-Z0-9_]*$`. -/
def isValidIdentifier (s : String) : Bool :=
  match s.data with
  | [] => false
  | c :: cs => (isAlphaCh c || c = '_') && cs.all wordCh

/-- A table as seen by `describe_table`: `PRAGMA table_info` rows
    (name, declared type, NOT NULL flag, primary-key flag) plus the row count. -/
structure ColumnInfo where
  colName : String
  colType : String
  notNull : Bool
  primaryKey : Bool

structure TableModel where
  tableName : String
  columns : List ColumnInfo
  rowCount : Nat

/-- The database as the tool layer sees it. -/
def DbModel := List TableModel

/-- One formatted column line of `describe_table`'s output. -/
def columnLine (c : ColumnInfo) : String :=
  "  - " ++ c.colName ++ " (" ++ c.colType ++ ")"
    ++ (if c.notNull then " NOT NULL" else "")
    ++ (if c.primaryKey then " PRIMARY KEY" else "")

/-- `describe_table` (source lines 158-201): sanitize the identifier
    (a failure is caught and reported textually), check existence in
    `sqlite_master`, then format name, row count and columns. -/
def describe_table (db : DbModel) (table_name : String) : String :=
  if !isValidIdentifier table_name then
    "Error: Invalid identifier '" ++ table_name
      ++ "'. Only alphanumeric characters and underscores allowed."
  else
    match db.find? (fun t => t.tableName == table_name) with
    | none => "Error: Table '" ++ table_name ++ "' does not exist."
    | some t =>
      String.intercalate "\n"
        (["Table: " ++ table_name, "Row count: " ++ toString t.rowCount, "Columns:"]
          ++ t.columns.map columnLine)

/-! ## `src/agent.py` `_call_llm`: error classification, rate limiting, retry

The provider is an oracle mapping the attempt number to its result; the
wall clock is modelled explicitly: `now` advances by the modelled duration
of each provider attempt (`dur`, arbitrary non-negative) and by every
`time.sleep`.  `lastApiCall` models `self._last_api_call`, which the source
updates at line 163 before every attempt. -/

/-- Outcome of one provider attempt, as seen by the `except` handler. -/
inductive AttemptResult where
  | ok (resp : String)
  | err (msg : String)

/-- The fatal branch (source lines 187-192): the lowered error text
    contains one of the daily-limit keywords (`rate_limit_exceeded`
    included, with the source comment "Groq specific"). -/
def isFatalError (msg : String) : Bool :=
  ["daily limit", "quota exceeded", "daily quota", "rate_limit_exceeded"].any
    (fun kw => containsSub (lowerL msg.data) kw.data)

/-- The retryable rate-limit branch (source lines 211-215). -/
def isRateLimitError (msg : String) : Bool :=
  ["rate limit", "too many requests", "requests per minute"].any
    (fun kw => containsSub (lowerL msg.data) kw.data)

/-- How `_call_llm` terminates: a response, or one of its `raise` sites
    (fatal daily-quota `RuntimeError`, "Rate limit persists" `RuntimeError`,
    re-raise of the original exception, or the fall-through
    "Failed to call LLM after max retries" when the loop body never runs). -/
inductive LLMOutcome where
  | success (resp : String)
  | fatalQuota (orig : String)
  | persistentRateLimit
  | reraise (msg : String)
  | exhausted

/-- The rate-limiter / wall-clock state of one agent instance. -/
structure LlmState where
  now : ℚ
  lastApiCall : ℚ

/-- Full account of one `_call_llm` invocation: the `time.time()` value
    recorded for each attempt (line 163), the backoff sleeps performed, the
    outcome, the final clock state and the number of provider attempts. -/
structure CallTrace where
  timestamps : List ℚ
  sleeps : List ℚ
  outcome : LLMOutcome
  state : LlmState
  attempts : Nat

/-- The retry loop of `_call_llm` (source lines 157-239).  `fuel` is the
    number of remaining loop iterations (`max_retries - attempt + 1` at
    entry), so the recursion mirrors `for attempt in range(1, max_retries + 1)`. -/
def callAttempts (max_retries : Nat) (retry_delay : ℚ)
    (oracle : Nat → AttemptResult) (dur : Nat → ℚ) :
    Nat → Nat → LlmState → CallTrace
  | 0, _, s => ⟨[], [], .exhausted, s, 0⟩
  | fuel + 1, attempt, s =>
    let t := s.now
    let s1 : LlmState := ⟨s.now + dur attempt, t⟩
    match oracle attempt with
    | .ok resp => ⟨[t], [], .success resp, s1, 1⟩
    | .err msg =>
      if isFatalError msg then ⟨[t], [], .fatalQuota msg, s1, 1⟩
      else if isRateLimitError msg then
        if attempt < max_retries then
          let d := retry_delay * 2 ^ (attempt - 1)
          let r := callAttempts max_retries retry_delay oracle dur fuel (attempt + 1)
            ⟨s1.now + d, s1.lastApiCall⟩
          ⟨t :: r.timestamps, d :: r.sleeps, r.outcome, r.state, r.attempts + 1⟩
        else ⟨[t], [], .persistentRateLimit, s1, 1⟩
      else
        if attempt < max_retries then
          let d := retry_delay * 2 ^ (attempt - 1)
          let r := callAttempts max_retries retry_delay oracle dur fuel (attempt + 1)
            ⟨s1.now + d, s1.lastApiCall⟩
          ⟨t :: r.timestamps, d :: r.sleeps, r.outcome, r.state, r.attempts + 1⟩
        else ⟨[t], [], .reraise msg, s1, 1⟩

/-- The rate-limit wait of `_call_llm` (source lines 148-154): when less
    than `min_delay` has elapsed since `_last_api_call`, sleep the
    difference, i.e. advance the clock to `lastApiCall + min_delay`. -/
def rateGate (min_delay : ℚ) (s : LlmState) : LlmState :=
  if s.now - s.lastApiCall < min_delay then ⟨s.lastApiCall + min_delay, s.lastApiCall⟩
  else s

/-- `_call_llm` (source lines 129-239): the rate-limit wait, then the retry
    loop. -/
def call_llm (min_delay : ℚ) (max_retries : Nat) (retry_delay : ℚ)
    (oracle : Nat → AttemptResult) (dur : Nat → ℚ) (s : LlmState) : CallTrace :=
  callAttempts max_retries retry_delay oracle dur max_retries 1 (rateGate min_delay s)

/-! ## `src/agent.py` `run`: the ReAct loop -/

/-- A conversation message. -/
structure Msg where
  role : String
  content : String

/-- The fixed tool registry keys of `create_tool_registry`. -/
def knownTools : List String := ["list_tables", "describe_table", "query_database"]

/-- STEP 4 of `run` (source lines 338-362): unknown names yield the
    "Unknown tool" observation; known tools are executed, and any exception
    (modelled by `Except.error`) is caught and converted to a textual
    observation. -/
def dispatchTool (toolExec : String → Json → Except String String)
    (name : String) (params : Json) : String :=
  if !(knownTools.contains name) then
    "Error: Unknown tool: " ++ name ++ ". Available tools: "
      ++ String.intercalate ", " knownTools
  else
    match toolExec name params with
    | .ok r => r
    | .error e => "Tool execution error: " ++ e

/-- What one iteration of `run`'s loop body does after the LLM responded. -/
inductive StepResult where
  | finished (answer : String)
  | continueNoAction (newHist : List Msg)
  | continueObservation (newHist : List Msg) (ranTool : String)

/-- STEPs 2-5 of `run` (source lines 289-371): append the assistant
    message, return on a final answer, otherwise parse an action; on parse
    failure inject the corrective user message, otherwise dispatch the tool
    and inject the observation. -/
def runStep (toolExec : String → Json → Except String String)
    (hist : List Msg) (response : String) : StepResult :=
  let h1 := hist ++ [⟨"assistant", response⟩]
  if has_final_answer response then .finished (extract_final_answer response)
  else
    match extract_action_from_response response with
    | none =>
      .continueNoAction
        (h1 ++ [⟨"user", "Error: Expected ACTION or FINAL ANSWER. Please provide one."⟩])
    | some (name, params) =>
      let obs := dispatchTool toolExec name params
      .continueObservation (h1 ++ [⟨"user", "OBSERVATION: " ++ obs⟩]) name

/-- How `run` returns: a final answer, the "Error: LLM call failed" string,
    the max-iterations diagnostic, or (only reachable when
    `max_iterations = 0`) the source's `NameError` on the undefined
    `response` variable at line 386. -/
inductive RunResult where
  | answer (a : String)
  | errorResult (e : String)
  | maxIterations (diagnostic : String)
  | crash

/-- The loop of `run` (source lines 268-386).  `fuel` is the remaining
    iteration count; `lastResponse` tracks the `response` variable used by
    the max-iterations diagnostic. -/
def agentRunLoop (llm : List Msg → Except String String)
    (toolExec : String → Json → Except String String) (max_iterations : Nat) :
    Nat → List Msg → Option String → RunResult
  | 0, _, lastResponse =>
    match lastResponse with
    | none => .crash
    | some resp =>
      .maxIterations ("Agent stopped: Reached maximum iterations ("
        ++ toString max_iterations ++ "). Last response:\n\n" ++ resp)
  | fuel + 1, hist, _ =>
    match llm hist with
    | .error e => .errorResult ("Error: LLM call failed: " ++ e)
    | .ok response =>
      match runStep toolExec hist response with
      | .finished a => .answer a
      | .continueNoAction h2 => agentRunLoop llm toolExec max_iterations fuel h2 (some response)
      | .continueObservation h2 _ =>
        agentRunLoop llm toolExec max_iterations fuel h2 (some response)

/-- `run` (source lines 241-386): seed the history with the system prompt
    and the user query, then loop. -/
def agentRun (llm : List Msg → Except String String)
    (toolExec : String → Json → Except String String)
    (max_iterations : Nat) (systemPrompt userQuery : String) : RunResult :=
  agentRunLoop llm toolExec max_iterations max_iterations
    [⟨"system", systemPrompt⟩, ⟨"user", userQuery⟩] none

/-! ## `api.py` `run_query_with_full_logging`: the result envelope -/

/-- One step record of the API trace (the fields the claims are about). -/
structure StepRec where
  iteration : Nat
  stepType : String
  observation : String
  rawResponse : String

/-- The structured result envelope returned by `run_query_with_full_logging`. -/
structure Envelope where
  finalAnswer : String
  steps : List StepRec
  iterations : Nat
  status : String

/-- The tool dispatch of `api.py` (lines 169-179): the known three tools
    with exceptions caught as "Tool error: ...", and the in-`try` fallback
    "Unknown tool: ..." observation. -/
def apiDispatch (toolExec : String → Json → Except String String)
    (name : String) (params : Json) : String :=
  if knownTools.contains name then
    match toolExec name params with
    | .ok r => r
    | .error e => "Tool error: " ++ e
  else "Unknown tool: " ++ name

/-- The loop of `run_query_with_full_logging` (api.py lines 113-202).
    An LLM failure is caught by the outer `except`, recorded as an `ERROR`
    step, and `break`s out of the loop, after which the function returns
    the max-iterations envelope (lines 189-202). -/
def apiLoop (llm : List Msg → Except String String)
    (toolExec : String → Json → Except String String) (max_iterations : Nat) :
    Nat → Nat → List Msg → List StepRec → Envelope
  | 0, _, _, steps =>
    ⟨"Max iterations reached without final answer", steps, max_iterations, "max_iterations"⟩
  | fuel + 1, iter, hist, steps =>
    match llm hist with
    | .error e =>
      ⟨"Max iterations reached without final answer", steps ++ [⟨iter, "ERROR", e, ""⟩],
        max_iterations, "max_iterations"⟩
    | .ok response =>
      let h1 := hist ++ [⟨"assistant", response⟩]
      if has_final_answer response then
        ⟨extract_final_answer response, steps ++ [⟨iter, "FINAL_ANSWER", "", response⟩],
          iter, "success"⟩
      else
        match extract_action_from_response response with
        | none =>
          apiLoop llm toolExec max_iterations fuel (iter + 1) h1
            (steps ++ [⟨iter, "ERROR", "No valid ACTION found in LLM response", response⟩])
        | some (name, params) =>
          let obs := apiDispatch toolExec name params
          apiLoop llm toolExec max_iterations fuel (iter + 1)
            (h1 ++ [⟨"user", "OBSERVATION: " ++ obs⟩])
            (steps ++ [⟨iter, "REACT_CYCLE", obs, response⟩])

/-- `run_query_with_full_logging` (api.py lines 96-202). -/
def apiRun (llm : List Msg → Except String String)
    (toolExec : String → Json → Except String String)
    (max_iterations : Nat) (systemPrompt userQuery : String) : Envelope :=
  apiLoop llm toolExec max_iterations max_iterations 1
    [⟨"system", systemPrompt⟩, ⟨"user", userQuery⟩] []

/-! ## Auxiliary notions for the parser round-trip analysis -/

/-- The running brace count of the scan in `extract_action_from_response`:
    occurrences of `\x7b` minus occurrences of `\x7d`. -/
def braceDelta : List Char → Int
  | [] => 0
  | c :: r => (if c = '{' then 1 else if c = '}' then -1 else 0) + braceDelta r

/-- Every prefix has non-negative brace count. -/
def PrefixNonneg (l : List Char) : Prop := ∀ j : Nat, 0 ≤ braceDelta (l.take j)

/-- A character that is not a brace. -/
def braceFreeCh (c : Char) : Bool := !(c = '{' || c = '}')

mutual

/-- No string (key or value) anywhere in the value contains a brace
    character.  (Braces are still free to occur as the structural
    delimiters of nested objects.) -/
def braceFreeV : Json → Bool
  | .null => true
  | .bool _ => true
  | .num _ => true
  | .str s => s.data.all braceFreeCh
  | .arr es => braceFreeE es
  | .obj fs => braceFreeF fs

def braceFreeF : List (String × Json) → Bool
  | [] => true
  | (k, v) :: fs => k.data.all braceFreeCh && braceFreeV v && braceFreeF fs

def braceFreeE : List Json → Bool
  | [] => true
  | v :: vs => braceFreeV v && braceFreeE vs

end

mutual

/-- A parser-fuel budget sufficient for `parseValue` on the rendering of a
    value (each nesting step of the parser consumes one fuel unit). -/
def fuelV : Json → Nat
  | .null => 1
  | .bool _ => 1
  | .num _ => 1
  | .str _ => 1
  | .arr es => fuelE es + 1
  | .obj fs => fuelF fs + 1

def fuelF : List (String × Json) → Nat
  | [] => 1
  | (_, v) :: fs => max (fuelV v) (fuelF fs) + 1

def fuelE : List Json → Nat
  | [] => 1
  | v :: vs => max (fuelV v) (fuelE vs) + 1

end

/-- The continuation after a rendered value must not begin with a digit
    (otherwise a numeral would absorb it); in every position our renderings
    produce, the continuation begins with `,`, `\x7d`, `]` or is empty. -/
def digitGuard : List Char → Bool
  | [] => true
  | c :: _ => !isDigitCh c

/-- A tool name matching the claim's regex `[A-Za-z_]\w*`. -/
def isValidToolName (s : String) : Bool :=
  match s.data with
  | [] => false
  | c :: cs => (isAlphaCh c || c = '_') && cs.all wordCh

/-! # Theorems

First the shared helper lemmas about the string utilities, then one theorem
per claim (with its witness or counterexample). -/

theorem containsSub_nil (pat : List Char) : containsSub [] pat = pat.isEmpty := by
  rw [containsSub]
  cases pat <;> simp [List.isPrefixOf, List.isEmpty]

theorem containsSub_cons (c : Char) (t pat : List Char) :
    containsSub (c :: t) pat = (pat.isPrefixOf (c :: t) || containsSub t pat) := by
  rw [containsSub]
  cases h : pat.isPrefixOf (c :: t) <;> simp [h]

theorem isPrefixOf_self_append (l r : List Char) : l.isPrefixOf (l ++ r) = true := by
  induction l with
  | nil => simp [List.isPrefixOf]
  | cons c t ih => simp [List.isPrefixOf, ih]

theorem containsSub_pat_nil (l : List Char) : containsSub l [] = true := by
  cases l with
  | nil => simp [containsSub_nil, List.isEmpty]
  | cons c t => rw [containsSub_cons]; simp [List.isPrefixOf]

/-- A pattern that occurs as an infix is found by `containsSub`. -/
theorem containsSub_infix (a b pat : List Char) :
    containsSub (a ++ pat ++ b) pat = true := by
  induction a with
  | nil =>
    simp only [List.nil_append]
    cases pat with
    | nil => exact containsSub_pat_nil b
    | cons c t =>
      rw [List.cons_append, containsSub_cons]
      have : (c :: t).isPrefixOf (c :: (t ++ b)) = true := by
        simp [List.isPrefixOf, isPrefixOf_self_append]
      rw [this]
      simp
  | cons c t ih =>
    rw [show ((c :: t) ++ pat ++ b) = c :: (t ++ pat ++ b) by simp, containsSub_cons, ih]
    simp

/-- If none of `x`'s characters equals the pattern's head, an occurrence in
    `x ++ y` is an occurrence in `y`. -/
theorem containsSub_append_head_notin (x y M' : List Char) (c0 : Char)
    (h : c0 ∉ x) : containsSub (x ++ y) (c0 :: M') = containsSub y (c0 :: M') := by
  induction x with
  | nil => simp
  | cons a t ih =>
    have hne : (c0 == a) = false := by
      simp only [beq_eq_false_iff_ne, ne_eq]
      intro he
      exact h (by simp [he])
    rw [List.cons_append, containsSub_cons]
    have hpre : (c0 :: M').isPrefixOf (a :: (t ++ y)) = false := by
      simp [List.isPrefixOf, hne]
    rw [hpre]
    simp only [Bool.false_or]
    exact ih (fun hm => h (List.mem_cons_of_mem _ hm))

theorem upperL_append (a b : List Char) : upperL (a ++ b) = upperL a ++ upperL b := by
  simp [upperL]

theorem strData_append (a b : String) : (a ++ b).data = a.data ++ b.data :=
  String.data_append a b

/-- Claim C7: final-answer detection is case-insensitive and independent of
    the surrounding text: any occurrence of a casing variant of the marker
    is detected, whatever precedes or follows it; and prefixing a message
    with `THOUGHT: ` never changes the detection result, so a message that
    is only a THOUGHT (its text containing no casing variant of the marker)
    is never detected as a final answer. -/
theorem c7_final_answer_detection :
    (∀ a v b : String, strUpper v = "FINAL ANSWER:" →
      has_final_answer (a ++ v ++ b) = true)
  ∧ (∀ t : String, has_final_answer ("THOUGHT: " ++ t) = has_final_answer t) := by
  constructor
  · intro a v b hv
    have hvd : upperL v.data = ("FINAL ANSWER:").data := congrArg String.data hv
    unfold has_final_answer strContains strUpper
    simp only [strData_append, upperL_append, hvd]
    exact containsSub_infix _ _ _
  · intro t
    have hpre : upperL (("THOUGHT: ").data) = ("THOUGHT: ").data := by decide
    unfold has_final_answer strContains strUpper
    simp only [strData_append, upperL_append, hpre]
    have hF : 'F' ∉ ("THOUGHT: ").data := by decide
    exact containsSub_append_head_notin _ _ _ _ hF

/-- Witness for C7 at concrete inputs: a lower-case marker inside
    surrounding text is detected; a pure THOUGHT message is not. -/
theorem c7_witness :
    strUpper "final Answer:" = "FINAL ANSWER:"
    ∧ has_final_answer ("THOUGHT: done.\n" ++ "final Answer:" ++ " 8 employees") = true
    ∧ has_final_answer ("THOUGHT: " ++ "I should count the rows first")
        = has_final_answer "I should count the rows first"
    ∧ has_final_answer "I should count the rows first" = false := by
  refine ⟨by decide, c7_final_answer_detection.1 _ _ _ (by decide),
    c7_final_answer_detection.2 _, by decide⟩

/-- The row-cap transform's appended text always re-introduces `LIMIT`. -/
theorem strContains_upper_limit (x : List Char) (n : Nat) :
    strContains (strUpper ((⟨x⟩ : String) ++ " LIMIT " ++ toString n)) "LIMIT" = true := by
  unfold strContains strUpper
  have h1 : ((⟨x⟩ : String) ++ " LIMIT " ++ toString n).data
      = x ++ (" LIMIT ").data ++ (toString n).data := by
    simp [strData_append]
  rw [h1]
  simp only [upperL_append]
  have h2 : upperL (" LIMIT ").data = [' '] ++ ("LIMIT").data ++ [' '] := by decide
  rw [h2]
  have h3 : upperL x ++ ([' '] ++ ("LIMIT").data ++ [' ']) ++ upperL (toString n).data
      = (upperL x ++ [' ']) ++ ("LIMIT").data ++ ([' '] ++ upperL (toString n).data) := by
    simp [List.append_assoc]
  rw [h3]
  exact containsSub_infix _ _ _

/-- Claim C8: the row-cap transform appends ` LIMIT n` after trimming the
    trailing terminator exactly when the upper-cased query does not already
    contain `LIMIT`, and it is idempotent on every query. -/
theorem c8_add_limit :
    (∀ q : String, ∀ n : Nat,
      add_limit_if_missing (add_limit_if_missing q n) n = add_limit_if_missing q n)
  ∧ (∀ q : String, ∀ n : Nat, strContains (strUpper q) "LIMIT" = false →
      add_limit_if_missing q n
        = (⟨rstripWsL (rstripSemiL q.data)⟩ : String) ++ " LIMIT " ++ toString n)
  ∧ (∀ q : String, ∀ n : Nat, strContains (strUpper q) "LIMIT" = true →
      add_limit_if_missing q n = q) := by
  have happ : ∀ q : String, ∀ n : Nat, strContains (strUpper q) "LIMIT" = false →
      add_limit_if_missing q n
        = (⟨rstripWsL (rstripSemiL q.data)⟩ : String) ++ " LIMIT " ++ toString n := by
    intro q n h
    unfold add_limit_if_missing
    rw [h]
    simp
  have hkeep : ∀ q : String, ∀ n : Nat, strContains (strUpper q) "LIMIT" = true →
      add_limit_if_missing q n = q := by
    intro q n h
    unfold add_limit_if_missing
    rw [h]
    simp
  refine ⟨?_, happ, hkeep⟩
  intro q n
  cases h : strContains (strUpper q) "LIMIT" with
  | true => rw [hkeep q n h, hkeep q n h]
  | false =>
    rw [happ q n h]
    exact hkeep _ n (strContains_upper_limit _ n)

/-- Witness for C8 at concrete inputs: a query without a LIMIT gets the cap
    (trailing `;` trimmed), one with a LIMIT is unchanged, and both are
    fixed points of a second application. -/
theorem c8_witness :
    add_limit_if_missing "SELECT * FROM employees;" 100
      = "SELECT * FROM employees LIMIT 100"
    ∧ add_limit_if_missing "SELECT * FROM employees LIMIT 5" 100
      = "SELECT * FROM employees LIMIT 5"
    ∧ add_limit_if_missing (add_limit_if_missing "SELECT * FROM employees;" 100) 100
      = add_limit_if_missing "SELECT * FROM employees;" 100 := by
  refine ⟨?_, ?_, c8_add_limit.1 "SELECT * FROM employees;" 100⟩
  · rw [c8_add_limit.2.1 "SELECT * FROM employees;" 100 (by decide)]
    decide
  · exact c8_add_limit.2.2 "SELECT * FROM employees LIMIT 5" 100 (by decide)

/-- Claim C4: the validator rejects the three dangerous/stacked queries and
    accepts the two plain SELECT/CTE queries (the `explain` oracle models
    the live connection's `EXPLAIN` dry-run, assumed to succeed on the two
    syntactically valid queries).  The returned messages exhibit the layer
    order and the short-circuiting: the stacked queries are rejected by
    layer 2's multiple-statements message even though layer 3's `DROP`
    blacklist would also have matched the first of them. -/
theorem c4_validator_cases (explain : String → Option String)
    (h1 : explain "SELECT 1" = none)
    (h2 : explain "WITH t AS (SELECT 1) SELECT * FROM t" = none) :
    validate_sql_query explain "DROP TABLE x"
      = (false, "Only SELECT queries (including WITH/CTEs) are allowed.")
    ∧ validate_sql_query explain "SELECT * FROM x; DROP TABLE x"
      = (false, "Multiple statements not allowed.")
    ∧ validate_sql_query explain "select 1; select 2"
      = (false, "Multiple statements not allowed.")
    ∧ validate_sql_query explain "SELECT 1" = (true, "")
    ∧ validate_sql_query explain "WITH t AS (SELECT 1) SELECT * FROM t" = (true, "") := by
  refine ⟨rfl, rfl, rfl, ?_, ?_⟩
  · have hstep : validate_sql_query explain "SELECT 1"
        = (match explain "SELECT 1" with
            | none => (true, "")
            | some e => (false, "Invalid SQL syntax: " ++ e)) := rfl
    rw [hstep, h1]
  · have hstep : validate_sql_query explain "WITH t AS (SELECT 1) SELECT * FROM t"
        = (match explain "WITH t AS (SELECT 1) SELECT * FROM t" with
            | none => (true, "")
            | some e => (false, "Invalid SQL syntax: " ++ e)) := rfl
    rw [hstep, h2]

/-- Witness for C4: a connection on which every query EXPLAINs cleanly. -/
theorem c4_witness :
    validate_sql_query (fun _ => none) "DROP TABLE x"
      = (false, "Only SELECT queries (including WITH/CTEs) are allowed.")
    ∧ validate_sql_query (fun _ => none) "SELECT * FROM x; DROP TABLE x"
      = (false, "Multiple statements not allowed.")
    ∧ validate_sql_query (fun _ => none) "select 1; select 2"
      = (false, "Multiple statements not allowed.")
    ∧ validate_sql_query (fun _ => none) "SELECT 1" = (true, "")
    ∧ validate_sql_query (fun _ => none) "WITH t AS (SELECT 1) SELECT * FROM t"
      = (true, "") :=
  c4_validator_cases (fun _ => none) rfl rfl

/-! ### Helper lemmas for the `_call_llm` retry loop -/

/-- Under sustained non-fatal failures, the retry loop makes exactly one
    attempt per remaining fuel unit, sleeps the exponential backoff
    schedule, and ends in the rate-limit `RuntimeError` or in the re-raise
    of the final failure. -/
theorem callAttempts_const_err (mr : Nat) (rd : ℚ) (m : Nat → String)
    (dur : Nat → ℚ) (hm : ∀ k, isFatalError (m k) = false) :
    ∀ fuel a : Nat, ∀ s : LlmState, 1 ≤ fuel → 1 ≤ a → a + fuel = mr + 1 →
      (callAttempts mr rd (fun k => AttemptResult.err (m k)) dur fuel a s).attempts = fuel
      ∧ (callAttempts mr rd (fun k => AttemptResult.err (m k)) dur fuel a s).sleeps
        = (List.range (fuel - 1)).map (fun i => rd * 2 ^ (a - 1 + i))
      ∧ (callAttempts mr rd (fun k => AttemptResult.err (m k)) dur fuel a s).outcome
        = (if isRateLimitError (m mr) = true then LLMOutcome.persistentRateLimit
           else LLMOutcome.reraise (m mr)) := by
  intro fuel
  induction fuel with
  | zero => intro a s h _ _; omega
  | succ f ih =>
    intro a s _ ha hsum
    rcases Nat.eq_zero_or_pos f with hf | hf
    · subst hf
      have hamr : a = mr := by omega
      subst hamr
      simp only [callAttempts, hm a, Bool.false_eq_true, if_false, Nat.lt_irrefl, ite_false]
      by_cases hr : isRateLimitError (m a) = true <;> simp [hr]
    · have halt : a < mr := by omega
      have iha := ih (a + 1) ⟨s.now + dur a + rd * 2 ^ (a - 1), s.now⟩
        (by omega) (by omega) (by omega)
      have hrange : (List.range (f - 1)).map (fun i => rd * 2 ^ (a + 1 - 1 + i))
          = (List.range (f - 1)).map ((fun i => rd * 2 ^ (a - 1 + i)) ∘ Nat.succ) := by
        refine List.map_congr_left ?_
        intro i _
        simp only [Function.comp_apply, Nat.succ_eq_add_one]
        rw [show a + 1 - 1 + i = a - 1 + (i + 1) by omega]
      have hmap : (List.range (f + 1 - 1)).map (fun i => rd * 2 ^ (a - 1 + i))
          = rd * 2 ^ (a - 1) :: (List.range (f - 1)).map (fun i => rd * 2 ^ (a + 1 - 1 + i)) := by
        have hf1 : f + 1 - 1 = (f - 1) + 1 := by omega
        rw [hf1, List.range_succ_eq_map, List.map_cons, List.map_map, hrange]
        simp
      simp only [callAttempts, hm a, Bool.false_eq_true, if_false, halt, ite_true]
      by_cases hr : isRateLimitError (m a) = true <;>
        simp only [hr, ite_true, Bool.false_eq_true, if_false] <;>
        exact ⟨by simp [iha.1], by rw [hmap]; simp [iha.2.1], by simp [iha.2.2]⟩

/-- The retry loop never makes more attempts than it has fuel. -/
theorem callAttempts_attempts_le (mr : Nat) (rd : ℚ) (oracle : Nat → AttemptResult)
    (dur : Nat → ℚ) :
    ∀ fuel a : Nat, ∀ s : LlmState,
      (callAttempts mr rd oracle dur fuel a s).attempts ≤ fuel := by
  intro fuel
  induction fuel with
  | zero => intro a s; simp [callAttempts]
  | succ f ih =>
    intro a s
    simp only [callAttempts]
    rcases oracle a with resp | msg
    · simp
    · by_cases hfat : isFatalError msg = true
      · simp [hfat]
      · by_cases hr : isRateLimitError msg = true <;>
          by_cases halt : a < mr <;>
          simp [hfat, hr, halt] <;>
          exact ih (a + 1) _

/-- Clock invariants of the retry loop, for an arbitrary oracle: every
    attempt's recorded timestamp lies between the clock at entry and the
    final `lastApiCall`; `lastApiCall` is monotone and never ahead of the
    clock. -/
theorem callAttempts_clock (mr : Nat) (rd : ℚ) (oracle : Nat → AttemptResult)
    (dur : Nat → ℚ) (hrd : 0 ≤ rd) (hdur : ∀ k, 0 ≤ dur k) :
    ∀ fuel a : Nat, ∀ s : LlmState, s.lastApiCall ≤ s.now →
      (∀ t ∈ (callAttempts mr rd oracle dur fuel a s).timestamps,
        s.now ≤ t ∧ t ≤ (callAttempts mr rd oracle dur fuel a s).state.lastApiCall)
      ∧ s.lastApiCall ≤ (callAttempts mr rd oracle dur fuel a s).state.lastApiCall
      ∧ (callAttempts mr rd oracle dur fuel a s).state.lastApiCall
        ≤ (callAttempts mr rd oracle dur fuel a s).state.now := by
  intro fuel
  induction fuel with
  | zero =>
    intro a s hs
    simp only [callAttempts]
    exact ⟨by simp, le_refl _, hs⟩
  | succ f ih =>
    intro a s hs
    have hdela : 0 ≤ rd * 2 ^ (a - 1) :=
      mul_nonneg hrd (pow_nonneg (by norm_num) _)
    have hnow : s.now ≤ s.now + dur a := by
      have := hdur a; linarith
    simp only [callAttempts]
    rcases oracle a with resp | msg
    · refine ⟨?_, by simpa using hs, by simpa using hnow⟩
      intro t ht
      simp only [List.mem_singleton] at ht
      subst ht
      exact ⟨le_refl _, le_refl _⟩
    · by_cases hfat : isFatalError msg = true
      · simp only [hfat, ite_true]
        refine ⟨?_, by simpa using hs, by simpa using hnow⟩
        intro t ht
        simp only [List.mem_singleton] at ht
        subst ht
        exact ⟨le_refl _, le_refl _⟩
      · have hterm :
            (∀ t ∈ ([s.now] : List ℚ), s.now ≤ t ∧ t ≤ s.now)
            ∧ s.lastApiCall ≤ s.now ∧ s.now ≤ s.now + dur a := by
          refine ⟨?_, hs, hnow⟩
          intro t ht
          simp only [List.mem_singleton] at ht
          subst ht
          exact ⟨le_refl _, le_refl _⟩
        have hrec : ∀ r : CallTrace,
            r = callAttempts mr rd oracle dur f (a + 1)
              ⟨s.now + dur a + rd * 2 ^ (a - 1), s.now⟩ →
            (∀ t ∈ s.now :: r.timestamps, s.now ≤ t ∧ t ≤ r.state.lastApiCall)
            ∧ s.lastApiCall ≤ r.state.lastApiCall
            ∧ r.state.lastApiCall ≤ r.state.now := by
          intro r hr
          have hs2 : (⟨s.now + dur a + rd * 2 ^ (a - 1), s.now⟩ : LlmState).lastApiCall
              ≤ (⟨s.now + dur a + rd * 2 ^ (a - 1), s.now⟩ : LlmState).now := by
            show s.now ≤ s.now + dur a + rd * 2 ^ (a - 1)
            linarith
          have ihr := ih (a + 1) ⟨s.now + dur a + rd * 2 ^ (a - 1), s.now⟩ hs2
          rw [← hr] at ihr
          have hlast : s.now ≤ r.state.lastApiCall := by
            have := ihr.2.1
            simpa using this
          refine ⟨?_, le_trans hs hlast, ihr.2.2⟩
          intro t ht
          rcases List.mem_cons.mp ht with h | h
          · subst h
            exact ⟨le_refl _, hlast⟩
          · have hmem := ihr.1 t h
            have h1 : s.now + dur a + rd * 2 ^ (a - 1) ≤ t := by
              have := hmem.1
              simpa using this
            exact ⟨by linarith, hmem.2⟩
        by_cases hr : isRateLimitError msg = true <;>
          by_cases halt : a < mr <;>
          simp only [hfat, hr, halt, Bool.false_eq_true,
            ite_true, ite_false, if_false]
        · exact hrec _ rfl
        · exact hterm
        · exact hrec _ rfl
        · exact hterm

/-! ### Rate-gate facts -/

theorem rateGate_lastApiCall (md : ℚ) (s : LlmState) :
    (rateGate md s).lastApiCall = s.lastApiCall := by
  unfold rateGate
  split <;> rfl

theorem rateGate_wellFormed (md : ℚ) (s : LlmState) (hmd : 0 ≤ md)
    (hs : s.lastApiCall ≤ s.now) :
    (rateGate md s).lastApiCall ≤ (rateGate md s).now := by
  unfold rateGate
  split
  · show s.lastApiCall ≤ s.lastApiCall + md
    linarith
  · exact hs

/-- After the gate, the clock is at least `min_delay` past the last call. -/
theorem rateGate_now_ge (md : ℚ) (s : LlmState) :
    s.lastApiCall + md ≤ (rateGate md s).now := by
  unfold rateGate
  split
  · exact le_refl _
  · rename_i h
    have : md ≤ s.now - s.lastApiCall := by linarith [not_lt.mp h]
    linarith

/-- Claim C5: under sustained transient (non-fatal) provider failures, the
    client makes exactly `max_retries` attempts, sleeps
    `retry_delay * 2 ^ (k - 2)` before attempt `k` for every `2 ≤ k ≤
    max_retries`, and then raises (the persistent-rate-limit error or the
    re-raise of the final failure) rather than attempting again. -/
theorem c5_backoff_schedule (max_retries : Nat) (min_delay retry_delay : ℚ)
    (m : Nat → String) (dur : Nat → ℚ) (s : LlmState)
    (hmr : 1 ≤ max_retries) (hm : ∀ k, isFatalError (m k) = false) :
    (call_llm min_delay max_retries retry_delay
        (fun k => AttemptResult.err (m k)) dur s).attempts = max_retries
    ∧ (call_llm min_delay max_retries retry_delay
        (fun k => AttemptResult.err (m k)) dur s).sleeps
      = (List.range (max_retries - 1)).map (fun i => retry_delay * 2 ^ i)
    ∧ (∀ k : Nat, 2 ≤ k → k ≤ max_retries →
        (call_llm min_delay max_retries retry_delay
            (fun k => AttemptResult.err (m k)) dur s).sleeps.get? (k - 2)
          = some (retry_delay * 2 ^ (k - 2)))
    ∧ ((call_llm min_delay max_retries retry_delay
          (fun k => AttemptResult.err (m k)) dur s).outcome = LLMOutcome.persistentRateLimit
        ∨ (call_llm min_delay max_retries retry_delay
            (fun k => AttemptResult.err (m k)) dur s).outcome
          = LLMOutcome.reraise (m max_retries)) := by
  have h := callAttempts_const_err max_retries retry_delay m dur hm
    max_retries 1 (rateGate min_delay s) hmr (le_refl 1) (by omega)
  have hsched : (List.range (max_retries - 1)).map (fun i => retry_delay * 2 ^ (1 - 1 + i))
      = (List.range (max_retries - 1)).map (fun i => retry_delay * 2 ^ i) := by
    refine List.map_congr_left ?_
    intro i _
    norm_num
  unfold call_llm
  refine ⟨h.1, by rw [h.2.1, hsched], ?_, ?_⟩
  · intro k hk2 hkmr
    rw [h.2.1, hsched]
    have hlt : k - 2 < max_retries - 1 := by omega
    rw [List.get?_map, List.get?_range hlt]
    rfl
  · rw [h.2.2]
    by_cases hr : isRateLimitError (m max_retries) = true
    · exact Or.inl (by rw [if_pos hr])
    · exact Or.inr (by rw [if_neg hr])

/-- Witness for C5: three sustained generic transient failures with the
    default configuration sleep 5 s then 10 s and end after exactly 3
    attempts in a re-raise. -/
theorem c5_witness :
    (call_llm 20 3 5 (fun _ => AttemptResult.err "connection reset") (fun _ => 0)
        ⟨0, 0⟩).attempts = 3
    ∧ (call_llm 20 3 5 (fun _ => AttemptResult.err "connection reset") (fun _ => 0)
        ⟨0, 0⟩).sleeps.get? 0 = some (5 * 2 ^ 0)
    ∧ (call_llm 20 3 5 (fun _ => AttemptResult.err "connection reset") (fun _ => 0)
        ⟨0, 0⟩).sleeps.get? 1 = some (5 * 2 ^ 1)
    ∧ ((call_llm 20 3 5 (fun _ => AttemptResult.err "connection reset") (fun _ => 0)
          ⟨0, 0⟩).outcome = LLMOutcome.persistentRateLimit
        ∨ (call_llm 20 3 5 (fun _ => AttemptResult.err "connection reset") (fun _ => 0)
            ⟨0, 0⟩).outcome = LLMOutcome.reraise "connection reset") := by
  have hconn : isFatalError "connection reset" = false := by decide
  have h := c5_backoff_schedule 3 20 5 (fun _ => "connection reset") (fun _ => 0)
    ⟨0, 0⟩ (by norm_num) (fun _ => hconn)
  exact ⟨h.1, h.2.2.1 2 (by norm_num) (by norm_num),
    h.2.2.1 3 (by norm_num) (by norm_num), h.2.2.2⟩

/-- Claim C1 (amended): the fatal path is taken exactly when the lowered
    failure text contains one of `daily limit`, `quota exceeded`,
    `daily quota`, `rate_limit_exceeded` (checked before the transient
    keywords): such failures abort on the first attempt with the fatal
    quota error and no backoff sleep; failures matching only the transient
    throttling keywords are retried with backoff and raise the distinct
    persistent-rate-limit error after `max_retries` attempts. -/
theorem c1_amended (max_retries : Nat) (min_delay retry_delay : ℚ) (m : String)
    (dur : Nat → ℚ) (s : LlmState) (hmr : 1 ≤ max_retries) :
    (isFatalError m = true →
      (call_llm min_delay max_retries retry_delay
          (fun _ => AttemptResult.err m) dur s).outcome = LLMOutcome.fatalQuota m
      ∧ (call_llm min_delay max_retries retry_delay
          (fun _ => AttemptResult.err m) dur s).attempts = 1
      ∧ (call_llm min_delay max_retries retry_delay
          (fun _ => AttemptResult.err m) dur s).sleeps = [])
    ∧ (isFatalError m = false → isRateLimitError m = true →
      (call_llm min_delay max_retries retry_delay
          (fun _ => AttemptResult.err m) dur s).outcome = LLMOutcome.persistentRateLimit
      ∧ (call_llm min_delay max_retries retry_delay
          (fun _ => AttemptResult.err m) dur s).attempts = max_retries) := by
  constructor
  · intro hfat
    obtain ⟨mr', hmr'⟩ : ∃ mr', max_retries = mr' + 1 := ⟨max_retries - 1, by omega⟩
    rw [hmr']
    unfold call_llm
    simp [callAttempts, hfat]
  · intro hfat hrate
    have h := callAttempts_const_err max_retries retry_delay (fun _ => m) dur
      (fun _ => hfat) max_retries 1 (rateGate min_delay s) hmr (le_refl 1) (by omega)
    unfold call_llm
    exact ⟨by rw [h.2.2, if_pos hrate], h.1⟩

/-- Counterexample to C1 as stated: the failure text
    `too many requests per minute (rate_limit_exceeded)` signals
    requests-per-minute throttling (it matches the code's own transient
    keywords `too many requests` and `requests per minute`) and contains no
    daily/quota-exhaustion wording, yet the client takes the fatal-quota
    path on attempt 1 with no retry, because `rate_limit_exceeded` is on
    the fatal keyword list and is checked first. -/
theorem c1_counterexample :
    isRateLimitError "too many requests per minute (rate_limit_exceeded)" = true
    ∧ strContains (strLower "too many requests per minute (rate_limit_exceeded)")
        "daily" = false
    ∧ strContains (strLower "too many requests per minute (rate_limit_exceeded)")
        "quota" = false
    ∧ (call_llm 20 3 5
        (fun _ => AttemptResult.err "too many requests per minute (rate_limit_exceeded)")
        (fun _ => 0) ⟨100, 0⟩).outcome
      = LLMOutcome.fatalQuota "too many requests per minute (rate_limit_exceeded)"
    ∧ (call_llm 20 3 5
        (fun _ => AttemptResult.err "too many requests per minute (rate_limit_exceeded)")
        (fun _ => 0) ⟨100, 0⟩).attempts = 1
    ∧ (call_llm 20 3 5
        (fun _ => AttemptResult.err "too many requests per minute (rate_limit_exceeded)")
        (fun _ => 0) ⟨100, 0⟩).sleeps = [] := by
  have hfat : isFatalError "too many requests per minute (rate_limit_exceeded)" = true := by
    decide
  refine ⟨by decide, by decide, by decide, ?_, ?_, ?_⟩ <;>
    simp [call_llm, callAttempts, hfat]

/-- Witness for C1 (amended): a daily-quota failure aborts at once; a
    `Too Many Requests` throttling failure is retried and ends in the
    persistent-rate-limit error after all 3 attempts. -/
theorem c1_witness :
    isFatalError "Groq daily quota exceeded" = true
    ∧ (call_llm 20 3 5 (fun _ => AttemptResult.err "Groq daily quota exceeded")
        (fun _ => 0) ⟨0, 0⟩).outcome = LLMOutcome.fatalQuota "Groq daily quota exceeded"
    ∧ (call_llm 20 3 5 (fun _ => AttemptResult.err "Groq daily quota exceeded")
        (fun _ => 0) ⟨0, 0⟩).attempts = 1
    ∧ isFatalError "Too Many Requests" = false
    ∧ isRateLimitError "Too Many Requests" = true
    ∧ (call_llm 20 3 5 (fun _ => AttemptResult.err "Too Many Requests")
        (fun _ => 0) ⟨0, 0⟩).outcome = LLMOutcome.persistentRateLimit
    ∧ (call_llm 20 3 5 (fun _ => AttemptResult.err "Too Many Requests")
        (fun _ => 0) ⟨0, 0⟩).attempts = 3 := by
  have h1 := (c1_amended 3 20 5 "Groq daily quota exceeded" (fun _ => 0) ⟨0, 0⟩
    (by norm_num)).1 (by decide)
  have h2 := (c1_amended 3 20 5 "Too Many Requests" (fun _ => 0) ⟨0, 0⟩
    (by norm_num)).2 (by decide) (by decide)
  exact ⟨by decide, h1.1, h1.2.1, by decide, by decide, h2.1, h2.2⟩

/-- Claim C2 (amended): `min_delay_between_calls` separates provider calls
    made by distinct invocations of `_call_llm` on one client: every
    attempt timestamp of the next invocation is at least `min_delay` after
    every attempt timestamp of the previous one.  (Within one invocation,
    retry attempts are separated by the backoff sleeps instead, which can
    be smaller — see the counterexample.) -/
theorem c2_amended (min_delay retry_delay : ℚ) (max_retries : Nat)
    (o1 o2 : Nat → AttemptResult) (d1 d2 : Nat → ℚ) (s : LlmState)
    (hmd : 0 ≤ min_delay) (hrd : 0 ≤ retry_delay)
    (hd1 : ∀ k, 0 ≤ d1 k) (hd2 : ∀ k, 0 ≤ d2 k)
    (hs : s.lastApiCall ≤ s.now) :
    ∀ t1 ∈ (call_llm min_delay max_retries retry_delay o1 d1 s).timestamps,
    ∀ t2 ∈ (call_llm min_delay max_retries retry_delay o2 d2
        (call_llm min_delay max_retries retry_delay o1 d1 s).state).timestamps,
      min_delay ≤ t2 - t1 := by
  intro t1 ht1 t2 ht2
  have hg1 := rateGate_wellFormed min_delay s hmd hs
  have hclock1 := callAttempts_clock max_retries retry_delay o1 d1 hrd hd1
    max_retries 1 (rateGate min_delay s) hg1
  unfold call_llm at ht1 ht2
  have ht1le : t1 ≤ (callAttempts max_retries retry_delay o1 d1
      max_retries 1 (rateGate min_delay s)).state.lastApiCall :=
    (hclock1.1 t1 ht1).2
  have hr1wf : (callAttempts max_retries retry_delay o1 d1
      max_retries 1 (rateGate min_delay s)).state.lastApiCall
      ≤ (callAttempts max_retries retry_delay o1 d1
        max_retries 1 (rateGate min_delay s)).state.now := hclock1.2.2
  set r1state := (callAttempts max_retries retry_delay o1 d1
    max_retries 1 (rateGate min_delay s)).state with hr1state
  have hg2 := rateGate_wellFormed min_delay r1state hmd hr1wf
  have hgap := rateGate_now_ge min_delay r1state
  have hclock2 := callAttempts_clock max_retries retry_delay o2 d2 hrd hd2
    max_retries 1 (rateGate min_delay r1state) hg2
  have ht2ge : (rateGate min_delay r1state).now ≤ t2 := (hclock2.1 t2 ht2).1
  linarith

/-- Counterexample to C2 as stated: with the default configuration
    (`min_delay_between_calls = 20`, `retry_delay = 5`, `max_retries = 3`)
    and sustained rate-limit failures, one `_call_llm` invocation makes
    attempts at times 100, 105 and 115: the successive attempt timestamps
    100 and 105 differ by the backoff delay 5, which is less than the
    20-second floor the claim asserts for every pair of successive calls. -/
theorem c2_counterexample :
    (call_llm 20 3 5 (fun _ => AttemptResult.err "rate limit") (fun _ => 0)
        ⟨100, 0⟩).timestamps = [100, 105, 115]
    ∧ ¬ ((20 : ℚ) ≤ 105 - 100) := by
  have h1 : isFatalError "rate limit" = false := by decide
  have h2 : isRateLimitError "rate limit" = true := by decide
  constructor
  · norm_num [call_llm, rateGate, callAttempts, h1, h2]
  · norm_num

/-- Witness for C2 (amended): two consecutive successful invocations on a
    fresh client are gated 20 s apart (timestamps 20 and 40). -/
theorem c2_witness :
    (call_llm 20 3 5 (fun _ => AttemptResult.ok "pong") (fun _ => 0)
        ⟨0, 0⟩).timestamps = [20]
    ∧ (call_llm 20 3 5 (fun _ => AttemptResult.ok "pong2") (fun _ => 0)
        (call_llm 20 3 5 (fun _ => AttemptResult.ok "pong") (fun _ => 0)
          ⟨0, 0⟩).state).timestamps = [40]
    ∧ (20 : ℚ) ≤ 40 - 20 := by
  have ht1 : (call_llm 20 3 5 (fun _ => AttemptResult.ok "pong") (fun _ => 0)
      ⟨0, 0⟩).timestamps = [20] := by
    norm_num [call_llm, rateGate, callAttempts]
  have ht2 : (call_llm 20 3 5 (fun _ => AttemptResult.ok "pong2") (fun _ => 0)
      (call_llm 20 3 5 (fun _ => AttemptResult.ok "pong") (fun _ => 0)
        ⟨0, 0⟩).state).timestamps = [40] := by
    norm_num [call_llm, rateGate, callAttempts]
  refine ⟨ht1, ht2, ?_⟩
  have h := c2_amended 20 5 3 (fun _ => AttemptResult.ok "pong")
    (fun _ => AttemptResult.ok "pong2") (fun _ => 0) (fun _ => 0) ⟨0, 0⟩
    (by norm_num) (by norm_num) (fun _ => le_refl 0) (fun _ => le_refl 0)
    (by norm_num)
  exact h 20 (by rw [ht1]; simp) 40 (by rw [ht2]; simp)

/-- Claim C10: the controller checks for a final answer before action
    parsing: whenever the response contains the final-answer marker, the
    step finishes with the extracted answer for every tool environment (so
    no tool is parsed, dispatched or executed), and the whole run returns
    that answer — even when the same response also carries a well-formed
    ACTION block (see the witness). -/
theorem c10_final_answer_precedence :
    (∀ (toolExec : String → Json → Except String String) (hist : List Msg) (r : String),
      has_final_answer r = true →
      runStep toolExec hist r = StepResult.finished (extract_final_answer r))
    ∧ (∀ (llm : List Msg → Except String String)
        (toolExec : String → Json → Except String String)
        (mi : Nat) (sp uq r : String), 1 ≤ mi →
        llm [⟨"system", sp⟩, ⟨"user", uq⟩] = Except.ok r →
        has_final_answer r = true →
        agentRun llm toolExec mi sp uq = RunResult.answer (extract_final_answer r)) := by
  have hstep : ∀ (te : String → Json → Except String String) (hist : List Msg) (r : String),
      has_final_answer r = true →
      runStep te hist r = StepResult.finished (extract_final_answer r) := by
    intro te hist r h
    unfold runStep
    rw [h]
    simp
  refine ⟨hstep, ?_⟩
  intro llm te mi sp uq r hmi hllm hfa
  obtain ⟨mi', hmi'⟩ : ∃ mi', mi = mi' + 1 := ⟨mi - 1, by omega⟩
  rw [hmi']
  unfold agentRun
  rw [show mi' + 1 = mi' + 1 from rfl]
  simp only [agentRunLoop, hllm, hstep te _ r hfa]

/-- Witness for C10: a response carrying both a well-formed ACTION block
    and a FINAL ANSWER yields the answer, for a tool environment that would
    fail loudly if it were ever consulted. -/
theorem c10_witness :
    (extract_action_from_response
        "THOUGHT: done\nACTION: list_tables\x7b\x7d\nFINAL ANSWER: There are 8 employees.").isSome
      = true
    ∧ has_final_answer
        "THOUGHT: done\nACTION: list_tables\x7b\x7d\nFINAL ANSWER: There are 8 employees." = true
    ∧ runStep (fun _ _ => Except.error "tool must not run") []
        "THOUGHT: done\nACTION: list_tables\x7b\x7d\nFINAL ANSWER: There are 8 employees."
      = StepResult.finished "There are 8 employees."
    ∧ agentRun (fun _ => Except.ok
        "THOUGHT: done\nACTION: list_tables\x7b\x7d\nFINAL ANSWER: There are 8 employees.")
        (fun _ _ => Except.error "tool must not run") 10 "sys" "how many employees?"
      = RunResult.answer "There are 8 employees." := by
  have hex : extract_final_answer
      "THOUGHT: done\nACTION: list_tables\x7b\x7d\nFINAL ANSWER: There are 8 employees."
      = "There are 8 employees." := by decide
  refine ⟨by decide, by decide, ?_, ?_⟩
  · rw [c10_final_answer_precedence.1 (fun _ _ => Except.error "tool must not run") []
      _ (by decide), hex]
  · rw [c10_final_answer_precedence.2 (fun _ => Except.ok _)
      (fun _ _ => Except.error "tool must not run") 10 "sys" "how many employees?"
      _ (by norm_num) rfl (by decide), hex]

/-- Claim C9: tool dispatch always produces a textual observation and the
    loop continues: unknown names yield the "Unknown tool" listing, a
    `describe_table` on an absent table yields the textual "does not exist"
    observation, any exception thrown by a tool is converted to a textual
    error observation, and an actioned response always continues the loop
    with the observation injected. -/
theorem c9_dispatch_total :
    (∀ (te : String → Json → Except String String) (name : String) (params : Json),
      knownTools.contains name = false →
      dispatchTool te name params
        = "Error: Unknown tool: " ++ name
          ++ ". Available tools: list_tables, describe_table, query_database")
    ∧ (∀ (db : DbModel) (t : String), isValidIdentifier t = true →
        List.find? (fun tm => tm.tableName == t) db = none →
        describe_table db t = "Error: Table '" ++ t ++ "' does not exist.")
    ∧ (∀ (te : String → Json → Except String String) (name : String) (params : Json)
        (e : String), knownTools.contains name = true → te name params = Except.error e →
        dispatchTool te name params = "Tool execution error: " ++ e)
    ∧ (∀ (te : String → Json → Except String String) (hist : List Msg) (r name : String)
        (params : Json), has_final_answer r = false →
        extract_action_from_response r = some (name, params) →
        runStep te hist r = StepResult.continueObservation
          (hist ++ [⟨"assistant", r⟩,
            ⟨"user", "OBSERVATION: " ++ dispatchTool te name params⟩]) name) := by
  refine ⟨?_, ?_, ?_, ?_⟩
  · intro te name params h
    unfold dispatchTool
    rw [h]
    have hj : String.intercalate ", " knownTools
        = "list_tables, describe_table, query_database" := rfl
    simp only [Bool.not_false, if_true, ite_true, hj, String.append_assoc]
    have hcat : ". Available tools: " ++ "list_tables, describe_table, query_database"
        = ". Available tools: list_tables, describe_table, query_database" := rfl
    rw [hcat]
  · intro db t hid hfind
    unfold describe_table
    rw [hid]
    simp only [Bool.not_true, Bool.false_eq_true, if_false, ite_false]
    rw [hfind]
  · intro te name params e hk he
    unfold dispatchTool
    rw [hk, he]
    simp
  · intro te hist r name params hfa hact
    unfold runStep
    rw [hfa, hact]
    simp

/-- Witness for C9 at concrete inputs: an unknown tool name, a
    `describe_table` on a schema without the table, a throwing tool, and a
    full step that continues the loop with the error observation. -/
theorem c9_witness :
    knownTools.contains "drop_everything" = false
    ∧ dispatchTool (fun _ _ => Except.error "boom") "drop_everything" (Json.obj [])
      = "Error: Unknown tool: drop_everything. Available tools: list_tables, describe_table, query_database"
    ∧ isValidIdentifier "ghosts" = true
    ∧ describe_table [⟨"employees", [], 8⟩] "ghosts"
      = "Error: Table 'ghosts' does not exist."
    ∧ dispatchTool (fun _ _ => Except.error "boom") "query_database" (Json.obj [])
      = "Tool execution error: boom"
    ∧ runStep (fun _ _ => Except.error "boom") []
        "ACTION: describe_table\x7b\"table_name\": \"ghosts\"\x7d"
      = StepResult.continueObservation
          [⟨"assistant", "ACTION: describe_table\x7b\"table_name\": \"ghosts\"\x7d"⟩,
           ⟨"user", "OBSERVATION: Tool execution error: boom"⟩] "describe_table" := by
  refine ⟨by decide, ?_, by decide, ?_, ?_, ?_⟩
  · rw [c9_dispatch_total.1 (fun _ _ => Except.error "boom") "drop_everything"
      (Json.obj []) (by decide)]
    decide
  · exact c9_dispatch_total.2.1 [⟨"employees", [], 8⟩] "ghosts" (by decide) rfl
  · exact c9_dispatch_total.2.2.1 (fun _ _ => Except.error "boom") "query_database"
      (Json.obj []) "boom" (by decide) rfl
  · rw [c9_dispatch_total.2.2.2 (fun _ _ => Except.error "boom") []
      "ACTION: describe_table\x7b\"table_name\": \"ghosts\"\x7d" "describe_table"
      (Json.obj [("table_name", Json.str "ghosts")]) (by decide) (by rfl)]
    rfl

/-! ### Helper lemmas for the API envelope -/

/-- Every terminal envelope of the API loop has status `success` or
    `max_iterations`. -/
theorem apiLoop_status_cases (llm : List Msg → Except String String)
    (te : String → Json → Except String String) (mi : Nat) :
    ∀ fuel iter : Nat, ∀ hist : List Msg, ∀ steps : List StepRec,
      (apiLoop llm te mi fuel iter hist steps).status = "success"
      ∨ (apiLoop llm te mi fuel iter hist steps).status = "max_iterations" := by
  intro fuel
  induction fuel with
  | zero => intro iter hist steps; exact Or.inr rfl
  | succ f ih =>
    intro iter hist steps
    simp only [apiLoop]
    rcases llm hist with e | response
    · exact Or.inr rfl
    · dsimp only
      by_cases hfa : has_final_answer response = true
      · rw [hfa]
        simp
      · rw [show has_final_answer response = false by simpa using hfa]
        simp only [Bool.false_eq_true, if_false, ite_false]
        rcases extract_action_from_response response with _ | ⟨name, params⟩
        · exact ih (iter + 1) _ _
        · exact ih (iter + 1) _ _

/-- The API loop returns status `success` exactly when its trace contains a
    `FINAL_ANSWER` step (given that the accumulated trace has none yet). -/
theorem apiLoop_success_iff (llm : List Msg → Except String String)
    (te : String → Json → Except String String) (mi : Nat) :
    ∀ fuel iter : Nat, ∀ hist : List Msg, ∀ steps : List StepRec,
      (∀ st ∈ steps, st.stepType ≠ "FINAL_ANSWER") →
      ((apiLoop llm te mi fuel iter hist steps).status = "success"
        ↔ ∃ st ∈ (apiLoop llm te mi fuel iter hist steps).steps,
            st.stepType = "FINAL_ANSWER") := by
  intro fuel
  induction fuel with
  | zero =>
    intro iter hist steps hacc
    simp only [apiLoop]
    constructor
    · intro h
      exact absurd h (by decide)
    · intro ⟨st, hst, hty⟩
      exact absurd hty (hacc st hst)
  | succ f ih =>
    intro iter hist steps hacc
    simp only [apiLoop]
    rcases llm hist with e | response
    · dsimp only
      constructor
      · intro h
        exact absurd h (by decide)
      · intro ⟨st, hst, hty⟩
        rcases List.mem_append.mp hst with h | h
        · exact absurd hty (hacc st h)
        · simp only [List.mem_singleton] at h
          subst h
          exact absurd (show ("ERROR" : String) = "FINAL_ANSWER" from hty) (by decide)
    · dsimp only
      by_cases hfa : has_final_answer response = true
      · rw [hfa]
        simp only [ite_true]
        constructor
        · intro _
          exact ⟨⟨iter, "FINAL_ANSWER", "", response⟩, by simp, rfl⟩
        · intro _
          trivial
      · rw [show has_final_answer response = false by simpa using hfa]
        simp only [Bool.false_eq_true, if_false, ite_false]
        rcases extract_action_from_response response with _ | ⟨name, params⟩
        · refine ih (iter + 1) _ _ ?_
          intro st hst
          rcases List.mem_append.mp hst with h | h
          · exact hacc st h
          · simp only [List.mem_singleton] at h
            subst h
            intro hh
            exact absurd (show ("ERROR" : String) = "FINAL_ANSWER" from hh) (by decide)
        · refine ih (iter + 1) _ _ ?_
          intro st hst
          rcases List.mem_append.mp hst with h | h
          · exact hacc st h
          · simp only [List.mem_singleton] at h
            subst h
            intro hh
            exact absurd (show ("REACT_CYCLE" : String) = "FINAL_ANSWER" from hh) (by decide)

/-- Claim C6 (amended): the run always returns a structured envelope, but
    its `status` discriminator only distinguishes two outcomes: `success`
    exactly when a final answer was produced (a `FINAL_ANSWER` step
    exists), and `max_iterations` both when the budget is exhausted and
    when an unrecoverable LLM-call failure ends the loop early — the
    failure is recorded as an `ERROR` step (its message in the
    observation), but the envelope reports status `max_iterations` and
    `iterations = max_iterations`; no `error` status is ever produced. -/
theorem c6_amended :
    (∀ (llm : List Msg → Except String String)
      (te : String → Json → Except String String) (mi : Nat) (sp uq : String),
      (apiRun llm te mi sp uq).status = "success"
      ∨ (apiRun llm te mi sp uq).status = "max_iterations")
    ∧ (∀ (llm : List Msg → Except String String)
        (te : String → Json → Except String String) (mi : Nat) (sp uq e : String),
        1 ≤ mi → llm [⟨"system", sp⟩, ⟨"user", uq⟩] = Except.error e →
        apiRun llm te mi sp uq
          = ⟨"Max iterations reached without final answer",
              [⟨1, "ERROR", e, ""⟩], mi, "max_iterations"⟩)
    ∧ (∀ (llm : List Msg → Except String String)
        (te : String → Json → Except String String) (mi : Nat) (sp uq : String),
        ((apiRun llm te mi sp uq).status = "success"
          ↔ ∃ st ∈ (apiRun llm te mi sp uq).steps, st.stepType = "FINAL_ANSWER")) := by
  refine ⟨?_, ?_, ?_⟩
  · intro llm te mi sp uq
    exact apiLoop_status_cases llm te mi mi 1 _ []
  · intro llm te mi sp uq e hmi hllm
    obtain ⟨mi', hmi'⟩ : ∃ mi', mi = mi' + 1 := ⟨mi - 1, by omega⟩
    rw [hmi']
    unfold apiRun
    simp only [apiLoop, hllm, List.nil_append]
  · intro llm te mi sp uq
    exact apiLoop_success_iff llm te mi mi 1 _ [] (by simp)

/-- Counterexample to C6 as stated: an unrecoverable LLM failure on the
    first iteration ends the run early, yet the envelope's status is
    `max_iterations`, not `error` (and `iterations` reports the full
    budget 10 although the loop broke at iteration 1). -/
theorem c6_counterexample :
    (apiRun (fun _ => Except.error "Rate limit persists after 3 retries")
        (fun _ _ => Except.ok "") 10 "sys" "count the employees").status
      = "max_iterations"
    ∧ (apiRun (fun _ => Except.error "Rate limit persists after 3 retries")
        (fun _ _ => Except.ok "") 10 "sys" "count the employees").status ≠ "error"
    ∧ (apiRun (fun _ => Except.error "Rate limit persists after 3 retries")
        (fun _ _ => Except.ok "") 10 "sys" "count the employees").steps
      = [⟨1, "ERROR", "Rate limit persists after 3 retries", ""⟩]
    ∧ (apiRun (fun _ => Except.error "Rate limit persists after 3 retries")
        (fun _ _ => Except.ok "") 10 "sys" "count the employees").iterations = 10 := by
  exact ⟨rfl, by decide, rfl, rfl⟩

/-- Witness for C6 (amended) at concrete inputs: the status dichotomy and
    the exact envelope of an early LLM failure. -/
theorem c6_witness :
    ((apiRun (fun _ => Except.error "boom") (fun _ _ => Except.ok "") 5 "s" "q").status
        = "success"
      ∨ (apiRun (fun _ => Except.error "boom") (fun _ _ => Except.ok "") 5 "s" "q").status
        = "max_iterations")
    ∧ apiRun (fun _ => Except.error "boom") (fun _ _ => Except.ok "") 5 "s" "q"
      = ⟨"Max iterations reached without final answer",
          [⟨1, "ERROR", "boom", ""⟩], 5, "max_iterations"⟩ :=
  ⟨c6_amended.1 _ _ 5 "s" "q",
    c6_amended.2.1 _ _ 5 "s" "q" "boom" (by norm_num) rfl⟩

/-! ### Basic facts for the parser round-trip (claim C3) -/

theorem string_eta (s : String) : (⟨s.data⟩ : String) = s := by
  cases s
  rfl

theorem skipWs_cons_not {c : Char} (l : List Char) (h : isJsonWs c = false) :
    skipWs (c :: l) = c :: l := by
  simp [skipWs, h]

theorem skipPyWs_cons_not {c : Char} (l : List Char) (h : isPyWs c = false) :
    skipPyWs (c :: l) = c :: l := by
  simp [skipPyWs, h]

theorem isDigitCh_facts {c : Char} (h : isDigitCh c = true) :
    isJsonWs c = false ∧ braceFreeCh c = true ∧ c ≠ '-' ∧ c ≠ '{' ∧ c ≠ '['
      ∧ c ≠ '"' ∧ c ≠ 't' ∧ c ≠ 'f' ∧ c ≠ 'n' ∧ c ≠ ']' ∧ c ≠ '}' ∧ c ≠ '\\' := by
  simp only [isDigitCh, Bool.and_eq_true, decide_eq_true_eq] at h
  have hne : ∀ d : Char, ¬(48 ≤ d.toNat ∧ d.toNat ≤ 57) → c ≠ d := by
    intro d hd he
    exact hd (he ▸ h)
  refine ⟨?_, ?_, hne '-' (by decide), hne '{' (by decide), hne '[' (by decide),
    hne '"' (by decide), hne 't' (by decide), hne 'f' (by decide), hne 'n' (by decide),
    hne ']' (by decide), hne '}' (by decide), hne '\\' (by decide)⟩
  · simp only [isJsonWs, Bool.or_eq_false_iff, decide_eq_false_iff_not]
    omega
  · have h1 := hne '{' (by decide)
    have h2 := hne '}' (by decide)
    simp [braceFreeCh, h1, h2]

theorem digitChar_isDigit (d : Nat) : isDigitCh (digitChar d) = true := by
  unfold digitChar
  split <;> decide

theorem digitChar_toNat (d : Nat) (h : d < 10) : (digitChar d).toNat - 48 = d := by
  revert h
  revert d
  decide

theorem hexVal_hexChar (d : Nat) (h : d < 16) : hexVal (hexChar d) = some d := by
  revert h
  revert d
  decide

theorem wordCh_not_pyWs {c : Char} (h : wordCh c = true) : isPyWs c = false := by
  simp only [wordCh, isAlphaCh, isDigitCh, Bool.or_eq_true, Bool.and_eq_true,
    decide_eq_true_eq] at h
  rcases h with ((h | h) | h) | h
  · simp only [isPyWs, Bool.or_eq_false_iff, decide_eq_false_iff_not]
    omega
  · simp only [isPyWs, Bool.or_eq_false_iff, decide_eq_false_iff_not]
    omega
  · simp only [isPyWs, Bool.or_eq_false_iff, decide_eq_false_iff_not]
    omega
  · subst h
    decide

theorem isAlphaCh_wordCh {c : Char} (h : isAlphaCh c = true) : wordCh c = true := by
  simp [wordCh, h]

theorem natToChars_digits (m : Nat) : ∀ c ∈ natToChars m, isDigitCh c = true := by
  intro c hc
  unfold natToChars at hc
  by_cases h : m = 0
  · rw [if_pos h] at hc
    simp only [List.mem_singleton] at hc
    subst hc
    decide
  · rw [if_neg h] at hc
    rcases List.mem_map.mp hc with ⟨d, _, rfl⟩
    exact digitChar_isDigit d

theorem natToChars_ne_nil (m : Nat) : natToChars m ≠ [] := by
  unfold natToChars
  by_cases h : m = 0
  · rw [if_pos h]
    simp
  · rw [if_neg h]
    simp [Nat.digits_ne_nil_iff_ne_zero.mpr h]

theorem digitsVal_aux (L : List Nat) (hL : ∀ d ∈ L, d < 10) : ∀ acc : Nat,
    List.foldl (fun a c => a * 10 + (c.toNat - 48)) acc (L.reverse.map digitChar)
      = acc * 10 ^ L.length + Nat.ofDigits 10 L := by
  induction L with
  | nil =>
    intro acc
    simp [Nat.ofDigits]
  | cons d L ih =>
    intro acc
    have hd : d < 10 := hL d (by simp)
    have hL2 : ∀ x ∈ L, x < 10 := fun x hx => hL x (by simp [hx])
    rw [List.reverse_cons, List.map_append, List.foldl_append, ih hL2 acc]
    simp only [List.map_cons, List.map_nil, List.foldl_cons, List.foldl_nil,
      digitChar_toNat d hd, Nat.ofDigits_cons, List.length_cons, pow_succ]
    ring

theorem digitsVal_natToChars (m : Nat) : digitsVal (natToChars m) = m := by
  unfold natToChars digitsVal
  by_cases h : m = 0
  · rw [if_pos h, h]
    decide
  · rw [if_neg h]
    have hlt : ∀ d ∈ Nat.digits 10 m, d < 10 :=
      fun d hd => Nat.digits_lt_base (by norm_num) hd
    rw [digitsVal_aux (Nat.digits 10 m) hlt 0]
    simp [Nat.ofDigits_digits]

theorem takeDigits_append (ds rest : List Char) (hds : ∀ c ∈ ds, isDigitCh c = true)
    (hrest : digitGuard rest = true) : takeDigits (ds ++ rest) = (ds, rest) := by
  induction ds with
  | nil =>
    simp only [List.nil_append]
    cases rest with
    | nil => rfl
    | cons c r =>
      have hc : isDigitCh c = false := by
        simpa [digitGuard] using hrest
      simp [takeDigits, hc]
  | cons c t ih =>
    have hc := hds c (by simp)
    have ht : ∀ x ∈ t, isDigitCh x = true := fun x hx => hds x (by simp [hx])
    simp [takeDigits, hc, ih ht]

theorem parseNumber_dump (k : Int) (rest : List Char) (hrest : digitGuard rest = true) :
    parseNumber (intToChars k ++ rest) = some (Json.num k, rest) := by
  cases k with
  | ofNat n =>
    have hneg : ¬((Int.ofNat n) < 0) := not_lt.mpr (Int.natCast_nonneg n)
    unfold intToChars
    rw [if_neg hneg, show (Int.ofNat n).toNat = n from rfl]
    obtain ⟨c, t, hct⟩ := List.exists_cons_of_ne_nil (natToChars_ne_nil n)
    have hall : ∀ x ∈ c :: t, isDigitCh x = true := by
      rw [← hct]
      exact natToChars_digits n
    have hc := hall c (by simp)
    have htake : takeDigits (c :: (t ++ rest)) = (c :: t, rest) := by
      rw [show c :: (t ++ rest) = (c :: t) ++ rest from rfl]
      exact takeDigits_append (c :: t) rest hall hrest
    have hval : digitsVal (c :: t) = n := by
      rw [← hct]
      exact digitsVal_natToChars n
    rw [hct]
    simp only [List.cons_append]
    rw [parseNumber.eq_def]
    simp only [if_neg (show ¬(c = '-') from fun he => (isDigitCh_facts hc).2.2.1 he),
      htake, hval]
    simp
  | negSucc n =>
    have hneg : (Int.negSucc n) < 0 := Int.negSucc_lt_zero n
    unfold intToChars
    rw [if_pos hneg, show (Int.negSucc n).natAbs = n + 1 from rfl]
    simp only [List.cons_append]
    rw [parseNumber.eq_def]
    simp only [if_pos (show ('-' : Char) = '-' from rfl),
      takeDigits_append (natToChars (n + 1)) rest (natToChars_digits (n + 1)) hrest]
    have hne : (natToChars (n + 1)).isEmpty = false := by
      rcases List.exists_cons_of_ne_nil (natToChars_ne_nil (n + 1)) with ⟨c, t, hct⟩
      rw [hct]
      rfl
    rw [hne]
    simp only [Bool.false_eq_true, if_false, ite_false, digitsVal_natToChars]
    have hns : -((n + 1 : Nat) : Int) = Int.negSucc n := by
      rw [Int.negSucc_eq]
      omega
    rw [hns]
    simp

theorem parseStrBody_dump (cs : List Char) : ∀ rest : List Char,
    parseStrBody (escapeList cs ++ '"' :: rest) = some (cs, rest) := by
  induction cs with
  | nil =>
    intro rest
    rw [show escapeList [] ++ '"' :: rest = '"' :: rest from rfl, parseStrBody.eq_def]
    simp
  | cons c cs ih =>
    intro rest
    rw [show escapeList (c :: cs) = escapeChar c ++ escapeList cs from rfl,
      List.append_assoc]
    by_cases h1 : c = '"'
    · subst h1
      rw [show escapeChar '"' = ['\\', '"'] from rfl]
      simp only [List.cons_append, List.nil_append]
      rw [parseStrBody.eq_def]
      simp [ih rest]
    · by_cases h2 : c = '\\'
      · subst h2
        rw [show escapeChar '\\' = ['\\', '\\'] from rfl]
        simp only [List.cons_append, List.nil_append]
        rw [parseStrBody.eq_def]
        simp [ih rest]
      · by_cases h3 : c = '\n'
        · subst h3
          rw [show escapeChar '\n' = ['\\', 'n'] from rfl]
          simp only [List.cons_append, List.nil_append]
          rw [parseStrBody.eq_def]
          simp [ih rest]
        · by_cases h4 : c.toNat < 32
          · have hesc : escapeChar c
                = ['\\', 'u', '0', '0', hexChar (c.toNat / 16), hexChar (c.toNat % 16)] := by
              unfold escapeChar
              rw [if_neg h1, if_neg h2, if_neg h3, if_pos h4]
            have hdiv : c.toNat / 16 < 16 := by omega
            have hmod : c.toNat % 16 < 16 := Nat.mod_lt _ (by norm_num)
            have hofnat :
                Char.ofNat (16 * (c.toNat / 16) + c.toNat % 16) = c := by
              rw [show 16 * (c.toNat / 16) + c.toNat % 16 = c.toNat by omega]
              exact Char.ofNat_toNat c
            rw [hesc]
            simp only [List.cons_append, List.nil_append]
            rw [parseStrBody.eq_def]
            simp only [show hexVal '0' = some 0 from rfl, hexVal_hexChar _ hdiv,
              hexVal_hexChar _ hmod]
            simp [hofnat, ih rest]
          · have hesc : escapeChar c = [c] := by
              unfold escapeChar
              rw [if_neg h1, if_neg h2, if_neg h3, if_neg h4]
            rw [hesc]
            simp only [List.cons_append, List.nil_append]
            rw [parseStrBody.eq_def]
            simp [h1, h2, ih rest]

theorem fuelV_pos (v : Json) : 1 ≤ fuelV v := by
  cases v <;> simp [fuelV]

theorem fuelF_pos (fs : List (String × Json)) : 1 ≤ fuelF fs := by
  cases fs with
  | nil => simp [fuelF]
  | cons f fs => obtain ⟨k, v⟩ := f; simp [fuelF]

theorem fuelE_pos (es : List Json) : 1 ≤ fuelE es := by
  cases es <;> simp [fuelE]

theorem intToChars_head (k : Int) :
    ∃ c t, intToChars k = c :: t ∧ (isDigitCh c = true ∨ c = '-') := by
  unfold intToChars
  by_cases h : k < 0
  · rw [if_pos h]
    exact ⟨'-', natToChars k.natAbs, rfl, Or.inr rfl⟩
  · rw [if_neg h]
    obtain ⟨c, t, hct⟩ := List.exists_cons_of_ne_nil (natToChars_ne_nil k.toNat)
    refine ⟨c, t, hct, Or.inl (natToChars_digits k.toNat c ?_)⟩
    rw [hct]
    simp

/-- Every rendering starts with a non-whitespace character other than `]`
    and `\x7d`. -/
theorem dumpValue_head (v : Json) :
    ∃ c t, dumpValue v = c :: t ∧ isJsonWs c = false ∧ c ≠ ']' ∧ c ≠ '}' := by
  cases v with
  | null => refine ⟨'n', _, rfl, ?_, ?_, ?_⟩ <;> decide
  | bool b =>
    cases b
    · refine ⟨'f', _, rfl, ?_, ?_, ?_⟩ <;> decide
    · refine ⟨'t', _, rfl, ?_, ?_, ?_⟩ <;> decide
  | num k =>
    obtain ⟨c, t, hct, hcd⟩ := intToChars_head k
    rcases hcd with hd | hd
    · obtain ⟨hws, -, -, -, -, -, -, -, -, hrb, hcb, -⟩ := isDigitCh_facts hd
      exact ⟨c, t, hct, hws, hrb, hcb⟩
    · subst hd
      refine ⟨'-', t, hct, ?_, ?_, ?_⟩ <;> decide
  | str s => refine ⟨'"', _, rfl, ?_, ?_, ?_⟩ <;> decide
  | arr es => refine ⟨'[', _, rfl, ?_, ?_, ?_⟩ <;> decide
  | obj fs => refine ⟨'{', _, rfl, ?_, ?_, ?_⟩ <;> decide

theorem skipWs_ws_cons {c : Char} (l : List Char) (h : isJsonWs c = true) :
    skipWs (c :: l) = skipWs l := by
  simp [skipWs, h]

theorem parseValue_ws_cons (n : Nat) (l : List Char) :
    parseValue n (' ' :: l) = parseValue n l := by
  cases n with
  | zero =>
    rw [parseValue.eq_def, parseValue.eq_def]
  | succ m =>
    rw [parseValue.eq_def, parseValue.eq_def]
    dsimp only
    rw [skipWs_ws_cons l (by decide)]

theorem parseMembers_ws_cons (n : Nat) (l : List Char) :
    parseMembers n (' ' :: l) = parseMembers n l := by
  cases n with
  | zero =>
    rw [parseMembers.eq_def, parseMembers.eq_def]
  | succ m =>
    rw [parseMembers.eq_def, parseMembers.eq_def]
    dsimp only
    rw [skipWs_ws_cons l (by decide)]

theorem parseElems_ws_cons (n : Nat) (l : List Char) :
    parseElems n (' ' :: l) = parseElems n l := by
  cases n with
  | zero =>
    rw [parseElems.eq_def, parseElems.eq_def]
  | succ m =>
    rw [parseElems.eq_def, parseElems.eq_def]
    dsimp only
    rw [parseValue_ws_cons]

/-- The round trip between the canonical rendering and the `json.loads`
    model, with explicit parser fuel: any fuel of at least the value's
    budget parses the rendering back to the value, leaving the continuation
    (which must not begin with a digit) untouched. -/
theorem parse_dump_fuel : ∀ n : Nat,
    (∀ (v : Json) (rest : List Char), fuelV v ≤ n → digitGuard rest = true →
      parseValue n (dumpValue v ++ rest) = some (v, rest))
    ∧ (∀ (fs : List (String × Json)) (rest : List Char), fs ≠ [] → fuelF fs ≤ n →
      parseMembers n (dumpFields fs ++ '}' :: rest) = some (fs, rest))
    ∧ (∀ (es : List Json) (rest : List Char), es ≠ [] → fuelE es ≤ n →
      parseElems n (dumpElems es ++ ']' :: rest) = some (es, rest)) := by
  intro n
  induction n with
  | zero =>
    refine ⟨?_, ?_, ?_⟩
    · intro v rest hf _
      exact absurd hf (by have := fuelV_pos v; omega)
    · intro fs rest _ hf
      exact absurd hf (by have := fuelF_pos fs; omega)
    · intro es rest _ hf
      exact absurd hf (by have := fuelE_pos es; omega)
  | succ n ih =>
    obtain ⟨ihv, ihf, ihe⟩ := ih
    refine ⟨?_, ?_, ?_⟩
    · intro v rest hfuel hguard
      cases v with
      | null =>
        rw [show dumpValue Json.null ++ rest = 'n' :: 'u' :: 'l' :: 'l' :: rest from rfl,
          parseValue.eq_def]
        dsimp only
        rw [skipWs_cons_not _ (by decide)]
        simp [List.isPrefixOf]
      | bool b =>
        cases b
        · rw [show dumpValue (Json.bool false) ++ rest
              = 'f' :: 'a' :: 'l' :: 's' :: 'e' :: rest from rfl, parseValue.eq_def]
          dsimp only
          rw [skipWs_cons_not _ (by decide)]
          simp [List.isPrefixOf]
        · rw [show dumpValue (Json.bool true) ++ rest
              = 't' :: 'r' :: 'u' :: 'e' :: rest from rfl, parseValue.eq_def]
          dsimp only
          rw [skipWs_cons_not _ (by decide)]
          simp [List.isPrefixOf]
      | num k =>
        obtain ⟨c, t, hct, hcd⟩ := intToChars_head k
        have hback : c :: (t ++ rest) = intToChars k ++ rest := by
          rw [hct]
          rfl
        rw [show dumpValue (Json.num k) = intToChars k from rfl, hct]
        simp only [List.cons_append]
        rw [parseValue.eq_def]
        dsimp only
        rcases hcd with hd | hd
        · obtain ⟨hws, -, -, hn1, hn2, hn3, hn4, hn5, hn6, -, -, -⟩ := isDigitCh_facts hd
          rw [skipWs_cons_not _ hws]
          dsimp only
          rw [if_neg hn1, if_neg hn2, if_neg hn3, if_neg hn4, if_neg hn5, if_neg hn6,
            hback]
          exact parseNumber_dump k rest hguard
        · subst hd
          rw [skipWs_cons_not _ (by decide)]
          dsimp only
          rw [if_neg (by decide), if_neg (by decide), if_neg (by decide),
            if_neg (by decide), if_neg (by decide), if_neg (by decide), hback]
          exact parseNumber_dump k rest hguard
      | str s =>
        rw [show dumpValue (Json.str s) ++ rest
            = '"' :: (escapeList s.data ++ '"' :: rest) by simp [dumpValue, dumpStr]]
        rw [parseValue.eq_def]
        dsimp only
        rw [skipWs_cons_not _ (by decide)]
        dsimp only
        rw [if_neg (by decide), if_neg (by decide), if_pos rfl,
          parseStrBody_dump s.data rest]
        simp [string_eta]
      | obj fs =>
        rw [show dumpValue (Json.obj fs) ++ rest
            = '{' :: (dumpFields fs ++ '}' :: rest) by simp [dumpValue]]
        rw [parseValue.eq_def]
        dsimp only
        rw [skipWs_cons_not _ (by decide)]
        dsimp only
        rw [if_pos rfl]
        cases fs with
        | nil =>
          rw [show dumpFields ([] : List (String × Json)) ++ '}' :: rest
              = '}' :: rest from rfl]
          rw [skipWs_cons_not _ (by decide)]
          simp
        | cons f fs' =>
          obtain ⟨k, v⟩ := f
          obtain ⟨D, hDef⟩ : ∃ D, dumpFields ((k, v) :: fs') = '"' :: D := by
            cases fs' with
            | nil =>
              refine ⟨escapeList k.data ++ '"' :: ':' :: ' ' :: dumpValue v, ?_⟩
              rw [show dumpFields [(k, v)]
                  = dumpStr k ++ ':' :: ' ' :: dumpValue v from rfl]
              simp [dumpStr]
            | cons f2 fs'' =>
              refine ⟨escapeList k.data ++ '"' :: ':' :: ' ' ::
                (dumpValue v ++ ',' :: ' ' :: dumpFields (f2 :: fs'')), ?_⟩
              rw [show dumpFields ((k, v) :: f2 :: fs'')
                  = dumpStr k ++ ':' :: ' ' :: dumpValue v
                    ++ ',' :: ' ' :: dumpFields (f2 :: fs'') from rfl]
              simp [dumpStr]
          rw [hDef]
          simp only [List.cons_append]
          rw [skipWs_cons_not _ (by decide)]
          dsimp only
          rw [if_neg (by decide)]
          rw [show ('"' :: (D ++ '}' :: rest)) = dumpFields ((k, v) :: fs') ++ '}' :: rest
            by rw [hDef]; rfl]
          rw [ihf ((k, v) :: fs') rest (by simp)
            (by simp only [fuelV] at hfuel; omega)]
          rfl
      | arr es =>
        rw [show dumpValue (Json.arr es) ++ rest
            = '[' :: (dumpElems es ++ ']' :: rest) by simp [dumpValue]]
        rw [parseValue.eq_def]
        dsimp only
        rw [skipWs_cons_not _ (by decide)]
        dsimp only
        rw [if_neg (by decide), if_pos rfl]
        cases es with
        | nil =>
          rw [show dumpElems ([] : List Json) ++ ']' :: rest = ']' :: rest from rfl]
          rw [skipWs_cons_not _ (by decide)]
          simp
        | cons e es' =>
          obtain ⟨c, t, hct, hws, hnb, -⟩ := dumpValue_head e
          obtain ⟨D, hDef⟩ : ∃ D, dumpElems (e :: es') = c :: D := by
            cases es' with
            | nil =>
              refine ⟨t, ?_⟩
              rw [show dumpElems [e] = dumpValue e from rfl, hct]
            | cons e2 es'' =>
              refine ⟨t ++ ',' :: ' ' :: dumpElems (e2 :: es''), ?_⟩
              rw [show dumpElems (e :: e2 :: es'')
                  = dumpValue e ++ ',' :: ' ' :: dumpElems (e2 :: es'') from rfl, hct]
              rfl
          rw [hDef]
          simp only [List.cons_append]
          rw [skipWs_cons_not _ hws]
          dsimp only
          rw [if_neg hnb]
          rw [show (c :: (D ++ ']' :: rest)) = dumpElems (e :: es') ++ ']' :: rest
            by rw [hDef]; rfl]
          rw [ihe (e :: es') rest (by simp)
            (by simp only [fuelV] at hfuel; omega)]
          rfl
    · intro fs rest hne hfuel
      cases fs with
      | nil => exact absurd rfl hne
      | cons f fs' =>
        obtain ⟨k, v⟩ := f
        simp only [fuelF] at hfuel
        have hv : fuelV v ≤ n := by
          have := le_max_left (fuelV v) (fuelF fs')
          omega
        have hfs' : fuelF fs' ≤ n := by
          have := le_max_right (fuelV v) (fuelF fs')
          omega
        cases fs' with
        | nil =>
          rw [show dumpFields [(k, v)] ++ '}' :: rest
              = '"' :: (escapeList k.data ++ '"' :: (':' :: ' ' :: (dumpValue v ++ '}' :: rest)))
            by simp [dumpFields, dumpStr]]
          rw [parseMembers.eq_def]
          dsimp only
          rw [skipWs_cons_not _ (by decide)]
          dsimp only
          rw [if_pos rfl, parseStrBody_dump k.data]
          dsimp only
          rw [skipWs_cons_not _ (by decide)]
          dsimp only
          rw [if_pos rfl, parseValue_ws_cons, ihv v ('}' :: rest) hv rfl]
          dsimp only
          rw [skipWs_cons_not _ (by decide)]
          dsimp only
          rw [if_neg (by decide), if_pos rfl, string_eta]
        | cons f2 fs'' =>
          obtain ⟨k2, v2⟩ := f2
          rw [show dumpFields ((k, v) :: (k2, v2) :: fs'') ++ '}' :: rest
              = '"' :: (escapeList k.data ++ '"' :: (':' :: ' ' ::
                (dumpValue v ++ ',' :: ' ' :: (dumpFields ((k2, v2) :: fs'') ++ '}' :: rest))))
            by simp [dumpFields, dumpStr]]
          rw [parseMembers.eq_def]
          dsimp only
          rw [skipWs_cons_not _ (by decide)]
          dsimp only
          rw [if_pos rfl, parseStrBody_dump k.data]
          dsimp only
          rw [skipWs_cons_not _ (by decide)]
          dsimp only
          rw [if_pos rfl, parseValue_ws_cons,
            ihv v (',' :: ' ' :: (dumpFields ((k2, v2) :: fs'') ++ '}' :: rest)) hv rfl]
          dsimp only
          rw [skipWs_cons_not _ (by decide)]
          dsimp only
          rw [if_pos rfl, parseMembers_ws_cons,
            ihf ((k2, v2) :: fs'') rest (by simp) hfs']
    · intro es rest hne hfuel
      cases es with
      | nil => exact absurd rfl hne
      | cons e es' =>
        simp only [fuelE] at hfuel
        have hv : fuelV e ≤ n := by
          have := le_max_left (fuelV e) (fuelE es')
          omega
        have hes' : fuelE es' ≤ n := by
          have := le_max_right (fuelV e) (fuelE es')
          omega
        cases es' with
        | nil =>
          rw [show dumpElems [e] ++ ']' :: rest = dumpValue e ++ ']' :: rest from rfl]
          rw [parseElems.eq_def]
          dsimp only
          rw [ihv e (']' :: rest) hv rfl]
          dsimp only
          rw [skipWs_cons_not _ (by decide)]
          dsimp only
          rw [if_neg (by decide), if_pos rfl]
        | cons e2 es'' =>
          rw [show dumpElems (e :: e2 :: es'') ++ ']' :: rest
              = dumpValue e ++ ',' :: ' ' :: (dumpElems (e2 :: es'') ++ ']' :: rest)
            by rw [show dumpElems (e :: e2 :: es'')
                = dumpValue e ++ ',' :: ' ' :: dumpElems (e2 :: es'') from rfl]; simp]
          rw [parseElems.eq_def]
          dsimp only
          rw [ihv e (',' :: ' ' :: (dumpElems (e2 :: es'') ++ ']' :: rest)) hv rfl]
          dsimp only
          rw [skipWs_cons_not _ (by decide)]
          dsimp only
          rw [if_pos rfl, parseElems_ws_cons, ihe (e2 :: es'') rest (by simp) hes']

/-- The parser fuel a value needs is covered by the length of its
    rendering (so `parseJsonText`, which supplies `length + 1` fuel, always
    has enough). -/
theorem dump_len_bound : ∀ N : Nat,
    (∀ v : Json, fuelV v ≤ N → fuelV v ≤ (dumpValue v).length + 1)
    ∧ (∀ fs : List (String × Json), fuelF fs ≤ N →
        fuelF fs ≤ (dumpFields fs).length + 2)
    ∧ (∀ es : List Json, fuelE es ≤ N → fuelE es ≤ (dumpElems es).length + 2) := by
  intro N
  induction N with
  | zero =>
    refine ⟨?_, ?_, ?_⟩
    · intro v hf
      exact absurd hf (by have := fuelV_pos v; omega)
    · intro fs hf
      exact absurd hf (by have := fuelF_pos fs; omega)
    · intro es hf
      exact absurd hf (by have := fuelE_pos es; omega)
  | succ N ih =>
    obtain ⟨ihv, ihf, ihe⟩ := ih
    refine ⟨?_, ?_, ?_⟩
    · intro v hf
      cases v with
      | null => simp [fuelV]
      | bool b => simp [fuelV]
      | num k => simp [fuelV]
      | str s => simp [fuelV]
      | obj fs =>
        simp only [fuelV] at hf ⊢
        have hb := ihf fs (by omega)
        rw [show dumpValue (Json.obj fs) = '{' :: dumpFields fs ++ ['}'] from rfl]
        simp only [List.length_cons, List.length_append, List.length_singleton]
        omega
      | arr es =>
        simp only [fuelV] at hf ⊢
        have hb := ihe es (by omega)
        rw [show dumpValue (Json.arr es) = '[' :: dumpElems es ++ [']'] from rfl]
        simp only [List.length_cons, List.length_append, List.length_singleton]
        omega
    · intro fs hf
      cases fs with
      | nil => simp [fuelF, dumpFields]
      | cons f fs' =>
        obtain ⟨k, v⟩ := f
        simp only [fuelF] at hf ⊢
        have hv : fuelV v ≤ N := by
          have := le_max_left (fuelV v) (fuelF fs')
          omega
        have hbv := ihv v hv
        cases fs' with
        | nil =>
          rw [show dumpFields [(k, v)] = dumpStr k ++ ':' :: ' ' :: dumpValue v from rfl]
          have hmax : max (fuelV v) (fuelF []) ≤ (dumpValue v).length + 1 := by
            refine Nat.max_le.mpr ⟨hbv, ?_⟩
            simp [fuelF]
          simp only [List.length_append, List.length_cons]
          omega
        | cons f2 fs'' =>
          have hfs' : fuelF (f2 :: fs'') ≤ N := by
            have := le_max_right (fuelV v) (fuelF (f2 :: fs''))
            omega
          have hbf := ihf (f2 :: fs'') hfs'
          rw [show dumpFields ((k, v) :: f2 :: fs'')
              = dumpStr k ++ ':' :: ' ' :: dumpValue v
                ++ ',' :: ' ' :: dumpFields (f2 :: fs'') from rfl]
          have hmax : max (fuelV v) (fuelF (f2 :: fs''))
              ≤ (dumpValue v).length + (dumpFields (f2 :: fs'')).length + 2 := by
            refine Nat.max_le.mpr ⟨by omega, by omega⟩
          simp only [List.length_append, List.length_cons]
          omega
    · intro es hf
      cases es with
      | nil => simp [fuelE, dumpElems]
      | cons e es' =>
        simp only [fuelE] at hf ⊢
        have hv : fuelV e ≤ N := by
          have := le_max_left (fuelV e) (fuelE es')
          omega
        have hbv := ihv e hv
        cases es' with
        | nil =>
          rw [show dumpElems [e] = dumpValue e from rfl]
          have hmax : max (fuelV e) (fuelE []) ≤ (dumpValue e).length + 1 := by
            refine Nat.max_le.mpr ⟨hbv, ?_⟩
            simp [fuelE]
          omega
        | cons e2 es'' =>
          have hes' : fuelE (e2 :: es'') ≤ N := by
            have := le_max_right (fuelV e) (fuelE (e2 :: es''))
            omega
          have hbe := ihe (e2 :: es'') hes'
          rw [show dumpElems (e :: e2 :: es'')
              = dumpValue e ++ ',' :: ' ' :: dumpElems (e2 :: es'') from rfl]
          have hmax : max (fuelV e) (fuelE (e2 :: es''))
              ≤ (dumpValue e).length + (dumpElems (e2 :: es'')).length + 2 := by
            refine Nat.max_le.mpr ⟨by omega, by omega⟩
          simp only [List.length_append, List.length_cons]
          omega

theorem fuel_le_dumpLen (v : Json) : fuelV v ≤ (dumpValue v).length + 1 :=
  (dump_len_bound (fuelV v)).1 v (le_refl _)

/-- `json.loads` on the rendering of a value recovers the value. -/
theorem parseJsonText_dump (v : Json) : parseJsonText (dumpValue v) = some v := by
  unfold parseJsonText
  have h := (parse_dump_fuel ((dumpValue v).length + 1)).1 v [] (fuel_le_dumpLen v) rfl
  rw [List.append_nil] at h
  rw [h]
  simp [skipWs]

/-! ### Brace accounting for the scan of `extract_action_from_response` -/

theorem braceDelta_append (a b : List Char) :
    braceDelta (a ++ b) = braceDelta a + braceDelta b := by
  induction a with
  | nil => simp [braceDelta]
  | cons c t ih =>
    simp only [List.cons_append, braceDelta]
    have ih2 : braceDelta (t.append b) = braceDelta t + braceDelta b := ih
    rw [ih2]
    ring

theorem braceFreeCh_ne {c : Char} (h : braceFreeCh c = true) : c ≠ '{' ∧ c ≠ '}' := by
  simp only [braceFreeCh, Bool.not_eq_true', Bool.or_eq_false_iff,
    decide_eq_false_iff_not] at h
  exact h

theorem braceDelta_take_noBrace (l : List Char) (h : ∀ c ∈ l, braceFreeCh c = true) :
    ∀ j : Nat, braceDelta (l.take j) = 0 := by
  induction l with
  | nil => intro j; simp [braceDelta]
  | cons c t ih =>
    intro j
    cases j with
    | zero => simp [braceDelta]
    | succ j =>
      obtain ⟨h1, h2⟩ := braceFreeCh_ne (h c (by simp))
      simp only [List.take_succ_cons, braceDelta, if_neg h1, if_neg h2,
        ih (fun x hx => h x (by simp [hx])) j]
      ring

theorem braceDelta_noBrace (l : List Char) (h : ∀ c ∈ l, braceFreeCh c = true) :
    braceDelta l = 0 := by
  have := braceDelta_take_noBrace l h l.length
  rwa [List.take_length] at this

theorem pn_of_noBrace (l : List Char) (h : ∀ c ∈ l, braceFreeCh c = true) :
    PrefixNonneg l := by
  intro j
  rw [braceDelta_take_noBrace l h j]

theorem pn_append (a b : List Char) (ha : PrefixNonneg a) (hb : PrefixNonneg b) :
    PrefixNonneg (a ++ b) := by
  intro j
  rw [List.take_append_eq_append_take, braceDelta_append]
  have h1 := ha j
  have h2 := hb (j - a.length)
  omega

theorem pn_cons_noBrace {c : Char} (l : List Char) (hc : braceFreeCh c = true)
    (hl : PrefixNonneg l) : PrefixNonneg (c :: l) := by
  have := pn_append [c] l (pn_of_noBrace [c] (by simpa using hc)) hl
  simpa using this

/-- Wrapping a balanced, prefix-non-negative body in `\x7b`/`\x7d` keeps all
    prefixes non-negative. -/
theorem pn_wrap (F : List Char) (hpn : PrefixNonneg F) (hz : braceDelta F = 0) :
    PrefixNonneg ('{' :: F ++ ['}']) := by
  intro j
  cases j with
  | zero => simp [braceDelta]
  | succ j =>
    rw [show ('{' :: F ++ ['}']).take (j + 1) = '{' :: (F ++ ['}']).take j by simp]
    rw [show braceDelta ('{' :: (F ++ ['}']).take j)
        = 1 + braceDelta ((F ++ ['}']).take j) by simp [braceDelta]]
    rw [List.take_append_eq_append_take, braceDelta_append]
    have h1 := hpn j
    have h2 : -1 ≤ braceDelta (List.take (j - F.length) ['}']) := by
      cases hj : j - F.length with
      | zero => simp [braceDelta]
      | succ m => simp [braceDelta]
    omega

theorem digitChar_braceFree (d : Nat) : braceFreeCh (digitChar d) = true := by
  unfold digitChar
  split <;> decide

theorem hexChar_braceFree (d : Nat) : braceFreeCh (hexChar d) = true := by
  unfold hexChar
  by_cases h : d < 10
  · rw [if_pos h]
    exact digitChar_braceFree d
  · rw [if_neg h]
    split <;> try decide
    split <;> try decide
    split <;> try decide
    split <;> try decide
    split <;> decide

theorem natToChars_braceFree (m : Nat) : ∀ c ∈ natToChars m, braceFreeCh c = true :=
  fun c hc => (isDigitCh_facts (natToChars_digits m c hc)).2.1

theorem intToChars_braceFree (k : Int) : ∀ c ∈ intToChars k, braceFreeCh c = true := by
  intro c hc
  unfold intToChars at hc
  by_cases h : k < 0
  · rw [if_pos h] at hc
    rcases List.mem_cons.mp hc with h1 | h1
    · subst h1
      decide
    · exact natToChars_braceFree _ c h1
  · rw [if_neg h] at hc
    exact natToChars_braceFree _ c hc

theorem escapeChar_braceFree {c : Char} (hc : braceFreeCh c = true) :
    ∀ x ∈ escapeChar c, braceFreeCh x = true := by
  intro x hx
  unfold escapeChar at hx
  by_cases h1 : c = '"'
  · rw [if_pos h1] at hx
    rcases List.mem_cons.mp hx with h | h
    · subst h; decide
    · simp only [List.mem_singleton] at h; subst h; decide
  · rw [if_neg h1] at hx
    by_cases h2 : c = '\\'
    · rw [if_pos h2] at hx
      rcases List.mem_cons.mp hx with h | h
      · subst h; decide
      · simp only [List.mem_singleton] at h; subst h; decide
    · rw [if_neg h2] at hx
      by_cases h3 : c = '\n'
      · rw [if_pos h3] at hx
        rcases List.mem_cons.mp hx with h | h
        · subst h; decide
        · simp only [List.mem_singleton] at h; subst h; decide
      · rw [if_neg h3] at hx
        by_cases h4 : c.toNat < 32
        · rw [if_pos h4] at hx
          simp only [List.mem_cons, List.not_mem_nil, or_false] at hx
          rcases hx with h | h | h | h | h | h
          · subst h; decide
          · subst h; decide
          · subst h; decide
          · subst h; decide
          · subst h; exact hexChar_braceFree _
          · subst h; exact hexChar_braceFree _
        · rw [if_neg h4] at hx
          simp only [List.mem_singleton] at hx
          subst hx
          exact hc

theorem escapeList_braceFree (cs : List Char) (h : ∀ c ∈ cs, braceFreeCh c = true) :
    ∀ x ∈ escapeList cs, braceFreeCh x = true := by
  induction cs with
  | nil => intro x hx; simp [escapeList] at hx
  | cons c t ih =>
    intro x hx
    rw [show escapeList (c :: t) = escapeChar c ++ escapeList t from rfl] at hx
    rcases List.mem_append.mp hx with h1 | h1
    · exact escapeChar_braceFree (h c (by simp)) x h1
    · exact ih (fun y hy => h y (by simp [hy])) x h1

theorem dumpStr_noBrace (k : String) (h : k.data.all braceFreeCh = true) :
    ∀ x ∈ dumpStr k, braceFreeCh x = true := by
  intro x hx
  unfold dumpStr at hx
  rcases List.mem_cons.mp hx with h1 | h1
  · subst h1; decide
  · rcases List.mem_append.mp h1 with h2 | h2
    · exact escapeList_braceFree k.data (by simpa [List.all_eq_true] using h) x h2
    · simp only [List.mem_singleton] at h2; subst h2; decide

/-- Renderings of brace-free values are balanced and prefix-non-negative. -/
theorem dump_brace_facts : ∀ N : Nat,
    (∀ v : Json, fuelV v ≤ N → braceFreeV v = true →
      braceDelta (dumpValue v) = 0 ∧ PrefixNonneg (dumpValue v))
    ∧ (∀ fs : List (String × Json), fuelF fs ≤ N → braceFreeF fs = true →
      braceDelta (dumpFields fs) = 0 ∧ PrefixNonneg (dumpFields fs))
    ∧ (∀ es : List Json, fuelE es ≤ N → braceFreeE es = true →
      braceDelta (dumpElems es) = 0 ∧ PrefixNonneg (dumpElems es)) := by
  intro N
  induction N with
  | zero =>
    refine ⟨?_, ?_, ?_⟩
    · intro v hf
      exact absurd hf (by have := fuelV_pos v; omega)
    · intro fs hf
      exact absurd hf (by have := fuelF_pos fs; omega)
    · intro es hf
      exact absurd hf (by have := fuelE_pos es; omega)
  | succ N ih =>
    obtain ⟨ihv, ihf, ihe⟩ := ih
    refine ⟨?_, ?_, ?_⟩
    · intro v hf hbf
      cases v with
      | null =>
        exact ⟨braceDelta_noBrace _ (by decide), pn_of_noBrace _ (by decide)⟩
      | bool b =>
        cases b
        · exact ⟨braceDelta_noBrace _ (by decide), pn_of_noBrace _ (by decide)⟩
        · exact ⟨braceDelta_noBrace _ (by decide), pn_of_noBrace _ (by decide)⟩
      | num k =>
        exact ⟨braceDelta_noBrace _ (intToChars_braceFree k),
          pn_of_noBrace _ (intToChars_braceFree k)⟩
      | str s =>
        have hs : s.data.all braceFreeCh = true := by
          simpa [braceFreeV] using hbf
        exact ⟨braceDelta_noBrace _ (dumpStr_noBrace s hs),
          pn_of_noBrace _ (dumpStr_noBrace s hs)⟩
      | obj fs =>
        simp only [fuelV] at hf
        have hff : braceFreeF fs = true := by simpa [braceFreeV] using hbf
        obtain ⟨hz, hpn⟩ := ihf fs (by omega) hff
        rw [show dumpValue (Json.obj fs) = '{' :: dumpFields fs ++ ['}'] from rfl]
        constructor
        · rw [show ('{' :: dumpFields fs ++ ['}'])
              = ['{'] ++ dumpFields fs ++ ['}'] from rfl]
          rw [braceDelta_append, braceDelta_append]
          simp [braceDelta, hz]
        · exact pn_wrap (dumpFields fs) hpn hz
      | arr es =>
        simp only [fuelV] at hf
        have hee : braceFreeE es = true := by simpa [braceFreeV] using hbf
        obtain ⟨hz, hpn⟩ := ihe es (by omega) hee
        rw [show dumpValue (Json.arr es) = '[' :: dumpElems es ++ [']'] from rfl]
        constructor
        · rw [show ('[' :: dumpElems es ++ [']'])
              = ['['] ++ dumpElems es ++ [']'] from rfl]
          rw [braceDelta_append, braceDelta_append]
          simp [braceDelta, hz]
        · rw [show ('[' :: dumpElems es ++ [']'])
              = ['['] ++ (dumpElems es ++ [']']) by simp]
          refine pn_append _ _ (pn_of_noBrace _ (by decide)) ?_
          exact pn_append _ _ hpn (pn_of_noBrace _ (by decide))
    · intro fs hf hbf
      cases fs with
      | nil =>
        exact ⟨by simp [dumpFields, braceDelta], by intro j; simp [dumpFields, braceDelta]⟩
      | cons f fs' =>
        obtain ⟨k, v⟩ := f
        simp only [fuelF] at hf
        simp only [braceFreeF, Bool.and_eq_true] at hbf
        have hv : fuelV v ≤ N := by
          have := le_max_left (fuelV v) (fuelF fs')
          omega
        obtain ⟨hzv, hpnv⟩ := ihv v hv hbf.1.2
        have hkey := dumpStr_noBrace k hbf.1.1
        cases fs' with
        | nil =>
          rw [show dumpFields [(k, v)]
              = dumpStr k ++ [':', ' '] ++ dumpValue v by simp [dumpFields]]
          constructor
          · rw [braceDelta_append, braceDelta_append,
              braceDelta_noBrace _ hkey, hzv]
            simp [braceDelta]
          · refine pn_append _ _ (pn_append _ _ (pn_of_noBrace _ hkey)
              (pn_of_noBrace _ (by decide))) hpnv
        | cons f2 fs'' =>
          have hfs' : fuelF (f2 :: fs'') ≤ N := by
            have := le_max_right (fuelV v) (fuelF (f2 :: fs''))
            omega
          obtain ⟨hzf, hpnf⟩ := ihf (f2 :: fs'') hfs' hbf.2
          rw [show dumpFields ((k, v) :: f2 :: fs'')
              = dumpStr k ++ [':', ' '] ++ dumpValue v ++ [',', ' ']
                ++ dumpFields (f2 :: fs'') by simp [dumpFields]]
          constructor
          · rw [braceDelta_append, braceDelta_append, braceDelta_append,
              braceDelta_append, braceDelta_noBrace _ hkey, hzv, hzf]
            simp [braceDelta]
          · refine pn_append _ _ (pn_append _ _ (pn_append _ _ (pn_append _ _
              (pn_of_noBrace _ hkey) (pn_of_noBrace _ (by decide))) hpnv)
              (pn_of_noBrace _ (by decide))) hpnf
    · intro es hf hbf
      cases es with
      | nil =>
        exact ⟨by simp [dumpElems, braceDelta], by intro j; simp [dumpElems, braceDelta]⟩
      | cons e es' =>
        simp only [fuelE] at hf
        simp only [braceFreeE, Bool.and_eq_true] at hbf
        have hv : fuelV e ≤ N := by
          have := le_max_left (fuelV e) (fuelE es')
          omega
        obtain ⟨hzv, hpnv⟩ := ihv e hv hbf.1
        cases es' with
        | nil =>
          rw [show dumpElems [e] = dumpValue e from rfl]
          exact ⟨hzv, hpnv⟩
        | cons e2 es'' =>
          have hes' : fuelE (e2 :: es'') ≤ N := by
            have := le_max_right (fuelV e) (fuelE (e2 :: es''))
            omega
          obtain ⟨hze, hpne⟩ := ihe (e2 :: es'') hes' hbf.2
          rw [show dumpElems (e :: e2 :: es'')
              = dumpValue e ++ [',', ' '] ++ dumpElems (e2 :: es'') by simp [dumpElems]]
          constructor
          · rw [braceDelta_append, braceDelta_append, hzv, hze]
            simp [braceDelta]
          · exact pn_append _ _ (pn_append _ _ hpnv (pn_of_noBrace _ (by decide))) hpne

theorem braceDelta_single_bounds (c : Char) :
    -1 ≤ braceDelta [c] ∧ braceDelta [c] ≤ 1 := by
  simp only [braceDelta, add_zero]
  split
  · norm_num
  · split
    · norm_num
    · norm_num

/-- Correctness of the brace-depth scan: on a span whose proper prefixes
    keep the running count positive and whose total count returns to zero,
    the scan stops exactly at the end of the span, whatever follows. -/
theorem braceSpan_exact : ∀ (xs : List Char) (d : Int) (rest : List Char),
    0 ≤ d →
    (∀ j : Nat, 0 < j → j < xs.length → 0 < d + braceDelta (xs.take j)) →
    d + braceDelta xs = 0 →
    xs ≠ [] →
    (xs.length = 1 → d = 1) →
    braceSpan d (xs ++ rest) = some xs := by
  intro xs
  induction xs with
  | nil =>
    intro d rest _ _ _ hne _
    exact absurd rfl hne
  | cons c t ih =>
    intro d rest hd hpre hdelta _ hone
    have hstep : ∀ d' : Int,
        d + braceDelta [c] = d' → t ≠ [] → 0 ≤ d' →
        (∀ j : Nat, 0 < j → j < t.length → 0 < d' + braceDelta (t.take j))
        ∧ d' + braceDelta t = 0
        ∧ (t.length = 1 → d' = 1) := by
      intro d' hd' hne2 _
      have hdel : d' + braceDelta t = 0 := by
        have : braceDelta (c :: t) = braceDelta [c] + braceDelta t := by
          rw [show (c :: t) = [c] ++ t from rfl, braceDelta_append]
        omega
      have hdp : 0 < d' := by
        obtain ⟨c2, t3, hc2⟩ := List.exists_cons_of_ne_nil hne2
        have hlen : 1 < (c :: t).length := by
          rw [hc2]
          simp
        have := hpre 1 (by norm_num) hlen
        have h1 : (c :: t).take 1 = [c] := rfl
        rw [h1] at this
        omega
      refine ⟨?_, hdel, ?_⟩
      · intro j hj hjl
        have := hpre (j + 1) (by omega) (by simp only [List.length_cons]; omega)
        have h2 : braceDelta ((c :: t).take (j + 1))
            = braceDelta [c] + braceDelta (t.take j) := by
          rw [List.take_succ_cons, show (c :: t.take j) = [c] ++ t.take j from rfl,
            braceDelta_append]
        omega
      · intro hl1
        obtain ⟨c2, t3, hc2⟩ := List.exists_cons_of_ne_nil hne2
        have ht3 : t3 = [] := by
          subst hc2
          simp only [List.length_cons] at hl1
          exact List.length_eq_zero.mp (by omega)
        subst hc2
        subst ht3
        have hb := braceDelta_single_bounds c2
        omega
    rw [List.cons_append, braceSpan.eq_def]
    dsimp only
    by_cases hc1 : c = '{'
    · subst hc1
      rw [if_pos rfl]
      cases t with
      | nil =>
        exfalso
        have h1 := hone rfl
        simp [braceDelta] at hdelta
        omega
      | cons c2 t2 =>
        obtain ⟨hpre', hdelta', hone'⟩ := hstep (d + 1)
          (by simp [braceDelta]) (by simp) (by omega)
        rw [ih (d + 1) rest (by omega) hpre' hdelta' (by simp) hone']
        rfl
    · by_cases hc2 : c = '}'
      · subst hc2
        rw [if_neg (by decide), if_pos rfl]
        cases t with
        | nil =>
          have h1 : d = 1 := hone rfl
          subst h1
          rw [if_pos (by norm_num)]
        | cons c3 t2 =>
          have hd2 : 0 < d - 1 := by
            have hlen : 1 < ('}' :: c3 :: t2).length := by simp
            have := hpre 1 (by norm_num) hlen
            simp [braceDelta] at this
            omega
          obtain ⟨hpre', hdelta', hone'⟩ := hstep (d - 1)
            (by simp [braceDelta]; ring) (by simp) (by omega)
          rw [if_neg (by omega : ¬(d - 1 = 0))]
          rw [ih (d - 1) rest (by omega) hpre' hdelta' (by simp) hone']
          rfl
      · rw [if_neg hc1, if_neg hc2]
        cases t with
        | nil =>
          exfalso
          have h1 := hone rfl
          simp [braceDelta, hc1, hc2] at hdelta
          omega
        | cons c3 t2 =>
          obtain ⟨hpre', hdelta', hone'⟩ := hstep d
            (by simp [braceDelta, hc1, hc2]) (by simp) hd
          rw [ih d rest hd hpre' hdelta' (by simp) hone']
          rfl

/-- The brace scan of the parser recovers exactly the rendering of a
    brace-free object. -/
theorem braceSpan_dump_obj (fs : List (String × Json)) (hbf : braceFreeF fs = true) :
    braceSpan 0 (dumpValue (Json.obj fs)) = some (dumpValue (Json.obj fs)) := by
  obtain ⟨hz, hpn⟩ := (dump_brace_facts (fuelF fs)).2.1 fs (le_refl _) hbf
  have hshape : dumpValue (Json.obj fs) = '{' :: dumpFields fs ++ ['}'] := rfl
  have hlen : (dumpValue (Json.obj fs)).length = (dumpFields fs).length + 2 := by
    rw [hshape]
    simp
  have happly := braceSpan_exact (dumpValue (Json.obj fs)) 0 [] (le_refl 0) ?_ ?_ ?_ ?_
  · rw [List.append_nil] at happly
    exact happly
  · intro j hj hjl
    rw [hlen] at hjl
    rw [hshape, show ('{' :: dumpFields fs ++ ['}']).take j
        = '{' :: (dumpFields fs ++ ['}']).take (j - 1) by
      cases j with
      | zero => omega
      | succ m => simp]
    rw [show ('{' :: (dumpFields fs ++ ['}']).take (j - 1))
        = ['{'] ++ (dumpFields fs ++ ['}']).take (j - 1) from rfl,
      braceDelta_append, List.take_append_eq_append_take, braceDelta_append]
    have h1 := hpn (j - 1)
    have h2 : (j - 1) - (dumpFields fs).length = 0 := by omega
    have h3 : braceDelta ['{'] = 1 := by decide
    have h4 : braceDelta ([] : List Char) = 0 := rfl
    rw [h2, List.take_zero, h3, h4]
    omega
  · rw [hshape, show ('{' :: dumpFields fs ++ ['}'])
        = ['{'] ++ dumpFields fs ++ ['}'] from rfl, braceDelta_append,
      braceDelta_append, hz]
    simp [braceDelta]
  · rw [hshape]
    simp
  · intro h1
    rw [hlen] at h1
    omega

theorem isPrefixOf_append_self (l t : List Char) : l.isPrefixOf (l ++ t) = true := by
  induction l with
  | nil => simp [List.isPrefixOf]
  | cons c r ih => simp [List.isPrefixOf, ih]

theorem takeWordRun_append (w : List Char) (c : Char) (r : List Char)
    (hw : w.all wordCh = true) (hc : wordCh c = false) :
    takeWordRun (w ++ c :: r) = (w, c :: r) := by
  induction w with
  | nil => simp [takeWordRun, hc]
  | cons a as ih =>
    simp only [List.all_cons, Bool.and_eq_true] at hw
    simp [takeWordRun, hw.1, ih hw.2]

theorem validToolName_shape (name : String) (h : isValidToolName name = true) :
    ∃ c0 cs, name.data = c0 :: cs ∧ wordCh c0 = true ∧ cs.all wordCh = true := by
  unfold isValidToolName at h
  cases hnd : name.data with
  | nil =>
    rw [hnd] at h
    exact absurd h (by decide)
  | cons c0 cs =>
    rw [hnd] at h
    dsimp only at h
    simp only [Bool.and_eq_true, Bool.or_eq_true] at h
    obtain ⟨h1, h2⟩ := h
    refine ⟨c0, cs, rfl, ?_, h2⟩
    rcases h1 with h1 | h1
    · exact isAlphaCh_wordCh h1
    · have hc : c0 = '_' := of_decide_eq_true h1
      subst hc
      decide

theorem matchActionAt_format (name : String) (fields : List (String × Json))
    (hname : isValidToolName name = true) :
    matchActionAt ('A' :: 'C' :: 'T' :: 'I' :: 'O' :: 'N' :: ':' :: ' '
        :: (name.data ++ dumpValue (Json.obj fields)))
      = some (name.data, dumpValue (Json.obj fields)) := by
  obtain ⟨c0, cs, hnd, hw0, hws⟩ := validToolName_shape name hname
  have hp : ("ACTION:").data.isPrefixOf ('A' :: 'C' :: 'T' :: 'I' :: 'O' :: 'N' :: ':' :: ' '
      :: (name.data ++ dumpValue (Json.obj fields))) = true := by
    rw [show ('A' :: 'C' :: 'T' :: 'I' :: 'O' :: 'N' :: ':' :: ' '
        :: (name.data ++ dumpValue (Json.obj fields)))
      = ("ACTION:").data ++ (' ' :: (name.data ++ dumpValue (Json.obj fields))) from rfl]
    exact isPrefixOf_append_self _ _
  have hdrop : ('A' :: 'C' :: 'T' :: 'I' :: 'O' :: 'N' :: ':' :: ' '
      :: (name.data ++ dumpValue (Json.obj fields))).drop 7
      = ' ' :: (name.data ++ dumpValue (Json.obj fields)) := rfl
  have hskip : skipPyWs (' ' :: (name.data ++ dumpValue (Json.obj fields)))
      = name.data ++ dumpValue (Json.obj fields) := by
    have hsp : isPyWs ' ' = true := by decide
    rw [show skipPyWs (' ' :: (name.data ++ dumpValue (Json.obj fields)))
        = skipPyWs (name.data ++ dumpValue (Json.obj fields)) from by simp [skipPyWs, hsp]]
    rw [hnd]
    exact skipPyWs_cons_not _ (wordCh_not_pyWs hw0)
  have htake : takeWordRun (name.data ++ dumpValue (Json.obj fields))
      = (name.data, dumpValue (Json.obj fields)) := by
    rw [hnd, show dumpValue (Json.obj fields) = '{' :: (dumpFields fields ++ ['}']) from rfl]
    exact takeWordRun_append (c0 :: cs) '{' (dumpFields fields ++ ['}'])
      (by simp [List.all_cons, hw0, hws]) (by decide)
  simp only [matchActionAt, hp, if_true, hdrop, hskip, htake]
  rw [hnd]
  simp

theorem findAction_format (name : String) (fields : List (String × Json))
    (hname : isValidToolName name = true) :
    findAction ('A' :: 'C' :: 'T' :: 'I' :: 'O' :: 'N' :: ':' :: ' '
        :: (name.data ++ dumpValue (Json.obj fields)))
      = some (name.data, dumpValue (Json.obj fields)) := by
  rw [findAction.eq_def]
  dsimp only
  rw [matchActionAt_format name fields hname]

/-- C3. The claimed round trip fails on brace-containing string values: the
    brace-count scan of `extract_action_from_response` also counts braces
    occurring inside JSON string literals, so for the valid tool name
    `query_database` and the flat mapping \x7b"q": "\x7d"\x7d the formatted
    `ACTION:` message does not parse back to the pair (the scan stops at the
    brace inside the string and `json.loads` then fails). -/
theorem c3_counterexample :
    isValidToolName "query_database" = true ∧
    extract_action_from_response
        ("ACTION: " ++ "query_database"
          ++ (⟨dumpValue (Json.obj [("q", Json.str "\x7d")])⟩ : String))
      ≠ some ("query_database", Json.obj [("q", Json.str "\x7d")]) := by
  refine ⟨by decide, ?_⟩
  intro h
  have h0 : extract_action_from_response
      ("ACTION: " ++ "query_database"
        ++ (⟨dumpValue (Json.obj [("q", Json.str "\x7d")])⟩ : String)) = none := by rfl
  rw [h0] at h
  exact Option.noConfusion h

/-- C3 (amended). For every tool name matching the regex `[A-Za-z_]\w*` and
    every string-keyed object whose string keys and string values are free of
    brace characters (nested objects, arrays, numbers, booleans and newlines
    in strings all allowed), formatting `ACTION: name` followed by the JSON
    rendering of the object and running `extract_action_from_response` on the
    message recovers exactly the (name, object) pair. -/
theorem c3_amended (name : String) (fields : List (String × Json))
    (hname : isValidToolName name = true)
    (hbf : braceFreeF fields = true) :
    extract_action_from_response
        ("ACTION: " ++ name ++ (⟨dumpValue (Json.obj fields)⟩ : String))
      = some (name, Json.obj fields) := by
  have hrd : ("ACTION: " ++ name ++ (⟨dumpValue (Json.obj fields)⟩ : String)).data
      = 'A' :: 'C' :: 'T' :: 'I' :: 'O' :: 'N' :: ':' :: ' '
        :: (name.data ++ dumpValue (Json.obj fields)) := by
    rw [strData_append, strData_append]
    rfl
  have hdropBrace : dropToBrace (dumpValue (Json.obj fields))
      = some (dumpValue (Json.obj fields)) := by
    rw [show dumpValue (Json.obj fields) = '{' :: (dumpFields fields ++ ['}']) from rfl]
    simp [dropToBrace]
  unfold extract_action_from_response
  rw [hrd, findAction_format name fields hname]
  dsimp only
  rw [hdropBrace]
  dsimp only
  rw [braceSpan_dump_obj fields hbf]
  dsimp only
  rw [parseJsonText_dump (Json.obj fields)]

/-- C3 witness: the amended round trip at a concrete message whose mapping
    has a multi-line string value and a nested object value. -/
theorem c3_witness :
    isValidToolName "query_database" = true ∧
    braceFreeF [("query", Json.str "SELECT *\nFROM employees"),
      ("options", Json.obj [("limit", Json.num 5)])] = true ∧
    extract_action_from_response
        ("ACTION: " ++ "query_database"
          ++ (⟨dumpValue (Json.obj [("query", Json.str "SELECT *\nFROM employees"),
                ("options", Json.obj [("limit", Json.num 5)])])⟩ : String))
      = some ("query_database",
          Json.obj [("query", Json.str "SELECT *\nFROM employees"),
            ("options", Json.obj [("limit", Json.num 5)])]) :=
  ⟨by decide, by decide,
    c3_amended "query_database"
      [("query", Json.str "SELECT *\nFROM employees"),
        ("options", Json.obj [("limit", Json.num 5)])]
      (by decide) (by decide)⟩

end SqlReactVerif
